import Mathlib

/-!
# Sparse-matrix assembly layer and link activation gate (Project Chrono)

A shallow embedding of

* `src/chrono/core/ChSparseMatrix.h`: the abstract sparse matrix with its generic
  block-paste algorithms, and
* `src/chrono/physics/ChLinkBase.h`: the activation flags of a link and the link type
  identifiers, and
* `src/chrono_parallel/math/other_types.h` with `Swap` of
  `src/chrono_parallel/math/real.h`: `Sort` on `uint4` and the comparison of `uvec3`,

followed by theorems about them.

Conventions of the embedding.

* C++ `int` indices are mathematical integers (`Int`).  Signed overflow is undefined
  behaviour in C++, so the source has a meaning only where `insrow + i` and `inscol + j`
  do not wrap; no theorem below relies on wrapping.
* C++ `double` values are an arbitrary type `V` with a zero and decidable equality
  (and an addition where accumulation is involved); the test `x != 0` of the source is
  `x ≠ 0`.  Exact arithmetic is assumed, rounding and NaN are outside the embedding.
* The pure virtual members `SetElement` and `GetElement` are the fields of a record of
  functions over an abstract state type `σ`; the derived paste operations are written
  once, over any such record, exactly as the base class writes them once for every
  backend.
* A counted loop `for (i = 0; i < n; i++)` is `forLoop n`.
-/

namespace chrono

/-! ## Counted loops -/

/-- The loop `for (int i = 0; i < n; i++) s = body i s`, started in state `s`.
A bound `n ≤ 0` gives no iteration. -/
def forLoop {σ : Type} (n : Int) (body : Int → σ → σ) (s : σ) : σ :=
  (List.range n.toNat).foldl (fun acc (k : Nat) => body (k : Int) acc) s

/-! ## The dense block source -/

/-- Modelled from the spec: the dense block source `ChMatrix<>` of
`chrono/core/ChMatrix.h`, which is not among the sources.  The spec (sections 2 and 6)
describes it as any object offering row and column counts and element access
`(i,j) -> real`, read only by the paste operations.  Element access is meaningful for
`0 ≤ i < rows` and `0 ≤ j < columns`. -/
structure ChMatrix (V : Type) where
  /-- number of rows, `GetRows()` -/
  rows : Int
  /-- number of columns, `GetColumns()` -/
  columns : Int
  /-- element access, `(*matra)(i, j)` and `GetElement(i, j)` -/
  elem : Int → Int → V

/-- The call `matra->GetRows()`. -/
def ChMatrix.GetRows {V : Type} (matra : ChMatrix V) : Int := matra.rows

/-- The call `matra->GetColumns()`. -/
def ChMatrix.GetColumns {V : Type} (matra : ChMatrix V) : Int := matra.columns

/-- The call `matra->GetElement(i, j)`. -/
def ChMatrix.GetElement {V : Type} (matra : ChMatrix V) (i j : Int) : V := matra.elem i j

/-- The block with `columns` rows and `rows` columns whose entry `(j, i)` is entry
`(i, j)` of `B`. -/
def ChMatrix.transposed {V : Type} (B : ChMatrix V) : ChMatrix V :=
  ⟨B.columns, B.rows, fun j i => B.elem i j⟩

/-- A block given by its rows, for concrete examples: entry `(i, j)` is the `j`-th
element of the `i`-th row, and zero where the lists have no element. -/
def ChMatrix.ofRows {V : Type} [Zero V] (nrows ncols : Nat) (data : List (List V)) : ChMatrix V :=
  ⟨nrows, ncols, fun i j =>
    if 0 ≤ i ∧ 0 ≤ j then ((data.getD i.toNat []).getD j.toNat 0) else 0⟩

/-! ## The abstract sparse matrix -/

/-- The two pure virtual element primitives of `class ChSparseMatrix`
(`ChSparseMatrix.h` lines 45-46) over a backend state `σ`:
`SetElement(insrow, inscol, insval, overwrite)` returns the new state, and
`GetElement(row, col)` reads a state. -/
structure ChSparseMatrix (σ V : Type) where
  /-- `virtual void SetElement(int insrow, int inscol, double insval, bool overwrite) = 0` -/
  SetElement : σ → Int → Int → V → Bool → σ
  /-- `virtual double GetElement(int row, int col) = 0` -/
  GetElement : σ → Int → Int → V

section paste

variable {σ V : Type}

/-- `ChSparseMatrix::PasteMatrix` (`ChSparseMatrix.h` lines 52-72). -/
def ChSparseMatrix.PasteMatrix [DecidableEq V] [Zero V] (M : ChSparseMatrix σ V) (s : σ)
    (matra : ChMatrix V) (insrow inscol : Int) (overwrite transp : Bool) : σ :=
  let maxrows := matra.GetRows
  let maxcols := matra.GetColumns
  if transp then
    forLoop maxcols (fun i s1 =>
      forLoop maxrows (fun j s2 =>
        if matra.elem j i ≠ 0 then
          M.SetElement s2 (insrow + i) (inscol + j) (matra.elem j i) overwrite
        else s2) s1) s
  else
    forLoop maxrows (fun i s1 =>
      forLoop maxcols (fun j s2 =>
        if matra.elem i j ≠ 0 then
          M.SetElement s2 (insrow + i) (inscol + j) (matra.elem i j) overwrite
        else s2) s1) s

/-- `ChSparseMatrix::PasteClippedMatrix` (`ChSparseMatrix.h` lines 75-86). -/
def ChSparseMatrix.PasteClippedMatrix (M : ChSparseMatrix σ V) (s : σ) (matra : ChMatrix V)
    (cliprow clipcol nrows ncolumns insrow inscol : Int) (overwrite : Bool) : σ :=
  forLoop nrows (fun i s1 =>
    forLoop ncolumns (fun j s2 =>
      M.SetElement s2 (insrow + i) (inscol + j)
        (matra.GetElement (i + cliprow) (j + clipcol)) overwrite) s1) s

/-- `ChSparseMatrix::PasteTranspMatrix` (`ChSparseMatrix.h` lines 94-96). -/
def ChSparseMatrix.PasteTranspMatrix [DecidableEq V] [Zero V] (M : ChSparseMatrix σ V) (s : σ)
    (matra : ChMatrix V) (insrow inscol : Int) : σ :=
  M.PasteMatrix s matra insrow inscol true true

/-- `ChSparseMatrix::PasteSumMatrix` (`ChSparseMatrix.h` lines 97-99). -/
def ChSparseMatrix.PasteSumMatrix [DecidableEq V] [Zero V] (M : ChSparseMatrix σ V) (s : σ)
    (matra : ChMatrix V) (insrow inscol : Int) : σ :=
  M.PasteMatrix s matra insrow inscol false false

/-- `ChSparseMatrix::PasteSumTranspMatrix` (`ChSparseMatrix.h` lines 100-102). -/
def ChSparseMatrix.PasteSumTranspMatrix [DecidableEq V] [Zero V] (M : ChSparseMatrix σ V) (s : σ)
    (matra : ChMatrix V) (insrow inscol : Int) : σ :=
  M.PasteMatrix s matra insrow inscol false true

/-- `ChSparseMatrix::PasteSumClippedMatrix` (`ChSparseMatrix.h` lines 103-111). -/
def ChSparseMatrix.PasteSumClippedMatrix (M : ChSparseMatrix σ V) (s : σ) (matra : ChMatrix V)
    (cliprow clipcol nrows ncolumns insrow inscol : Int) : σ :=
  M.PasteClippedMatrix s matra cliprow clipcol nrows ncolumns insrow inscol false

end paste

/-! ## Backends -/

section backends

variable {σ V : Type}

/-- The contract of `SetElement` with `overwrite = true` (spec 4.1): the value is stored
at `(r, c)`, so that `GetElement` returns the value last stored there, and no other cell
changes. -/
def StoresOnOverwrite (M : ChSparseMatrix σ V) : Prop :=
  ∀ (s : σ) (r c : Int) (v : V) (r' c' : Int),
    M.GetElement (M.SetElement s r c v true) r' c' =
      if r' = r ∧ c' = c then v else M.GetElement s r' c'

/-- The contract of `SetElement` with `overwrite = false` (spec 4.1): the value is added
to what `(r, c)` currently holds, and no other cell changes. -/
def AddsOnSum [Add V] (M : ChSparseMatrix σ V) : Prop :=
  ∀ (s : σ) (r c : Int) (v : V) (r' c' : Int),
    M.GetElement (M.SetElement s r c v false) r' c' =
      if r' = r ∧ c' = c then M.GetElement s r c + v else M.GetElement s r' c'

/-- Modelled from the spec: a concrete backend (the storage backends are not among the
sources).  The state maps every cell to its value, an absent entry being zero;
`SetElement` stores the value, or adds it to the current one when `overwrite` is
false; `GetElement` returns the stored value (spec 4.1). -/
def specBackend [Add V] : ChSparseMatrix (Int → Int → V) V where
  SetElement s r c v overwrite := fun r' c' =>
    if r' = r ∧ c' = c then (if overwrite then v else s r c + v) else s r' c'
  GetElement s r c := s r c

/-- Modelled from the spec: the state after `Reset`, where `GetElement` returns zero
everywhere (spec 8). -/
def specReset [Zero V] : Int → Int → V := fun _ _ => 0

/-- One `SetElement` call: its four arguments. -/
structure SetCall (V : Type) where
  row : Int
  col : Int
  val : V
  overwrite : Bool
deriving DecidableEq, Repr

/-- Issue a list of recorded calls, in order, on a backend. -/
def replay (M : ChSparseMatrix σ V) (s : σ) (calls : List (SetCall V)) : σ :=
  calls.foldl (fun acc k => M.SetElement acc k.row k.col k.val k.overwrite) s

/-- The recording backend: its state is the sequence of `SetElement` calls received so
far, oldest first.  `GetElement` replays them on the empty matrix of `specBackend`. -/
def recorder [Zero V] [Add V] : ChSparseMatrix (List (SetCall V)) V where
  SetElement log r c v overwrite := log ++ [⟨r, c, v, overwrite⟩]
  GetElement log r c := specBackend.GetElement (replay specBackend specReset log) r c

end backends

/-! ## Rectangular scans

The three loop nests of the paste operations share one shape: a row-major scan of an
`n × m` rectangle of offsets `(i, j)` that issues at most one `SetElement` call per
offset, at `(r + i, c + j)`.  The definitions below name that shape; the lemmas of the
next part show that each paste operation is an instance of it. -/

section scans

variable {σ V : Type}

/-- At offset `(i, j)`: call `SetElement (r + i) (c + j) v ow` when `g i j = some v`,
do nothing when `g i j = none`. -/
def writeCell (M : ChSparseMatrix σ V) (ow : Bool) (g : Int → Int → Option V) (r c : Int)
    (i j : Int) (s : σ) : σ :=
  match g i j with
  | some v => M.SetElement s (r + i) (c + j) v ow
  | none => s

/-- Row-major scan of the offsets `0 ≤ i < n`, `0 ≤ j < m` with `writeCell`. -/
def rectWrite (M : ChSparseMatrix σ V) (ow : Bool) (g : Int → Int → Option V) (r c : Int)
    (n m : Int) (s : σ) : σ :=
  forLoop n (fun i s1 => forLoop m (fun j s2 => writeCell M ow g r c i j s2) s1) s

/-- The calls of one row of a scan, in column order. -/
def rowCalls (ow : Bool) (g : Int → Int → Option V) (r c : Int) (m : Int) (i : Int) :
    List (SetCall V) :=
  (List.range m.toNat).filterMap (fun (j : Nat) =>
    (g i (j : Int)).map (fun v => (⟨r + i, c + (j : Int), v, ow⟩ : SetCall V)))

/-- The calls of a scan, row after row. -/
def rectCalls (ow : Bool) (g : Int → Int → Option V) (r c : Int) (n m : Int) :
    List (SetCall V) :=
  (List.range n.toNat).flatMap (fun (i : Nat) => rowCalls ow g r c m (i : Int))

/-- What `PasteMatrix` writes at an entry: the entry when it is not zero, nothing
otherwise. -/
def nonzeroEntry [DecidableEq V] [Zero V] (B : ChMatrix V) (i j : Int) : Option V :=
  if B.elem i j ≠ 0 then some (B.elem i j) else none

/-- A backend whose `SetElement` with flag `ow` combines the old value of the cell and
the new one by `f`, and leaves every other cell alone. -/
def Obeys (M : ChSparseMatrix σ V) (ow : Bool) (f : V → V → V) : Prop :=
  ∀ (s : σ) (r c : Int) (v : V) (r' c' : Int),
    M.GetElement (M.SetElement s r c v ow) r' c' =
      if r' = r ∧ c' = c then f (M.GetElement s r c) v else M.GetElement s r' c'

/-- The value of a cell after a scan wrote `o` there (or nothing) over `old`. -/
def cellResult (f : V → V → V) (old : V) (o : Option V) : V :=
  match o with
  | some v => f old v
  | none => old

end scans

/-! ## The call sequence of a paste, as the spec words it -/

section specside

variable {V : Type}

/-- The entries `(i, j)` of a block in row-major order. -/
def entriesRowMajor (B : ChMatrix V) : List (Nat × Nat) :=
  (List.range B.rows.toNat).product (List.range B.columns.toNat)

/-- Spec 4.1, `PasteMatrix` without transposition: one call
`SetElement(insRow+i, insCol+j, block[i][j], overwrite)` for every entry that is exactly
nonzero, in row-major order, and none for the others. -/
def nonzeroCallsRowMajor [DecidableEq V] [Zero V] (B : ChMatrix V) (insRow insCol : Int)
    (overwrite : Bool) : List (SetCall V) :=
  ((entriesRowMajor B).filter (fun (p : Nat × Nat) => decide (B.elem p.1 p.2 ≠ 0))).map
    (fun (p : Nat × Nat) => ⟨insRow + p.1, insCol + p.2, B.elem p.1 p.2, overwrite⟩)

/-- The number of nonzero entries of a block. -/
def countNonzero [DecidableEq V] [Zero V] (B : ChMatrix V) : Nat :=
  (entriesRowMajor B).countP (fun (p : Nat × Nat) => decide (B.elem p.1 p.2 ≠ 0))

end specside

/-! ## The activation flags of a link -/

/-- The data members of `class ChLinkBase` (`ChLinkBase.h` lines 89-92).  The class
derives from `ChPhysicsItem`, whose state is the field `item`. -/
structure ChLinkBase (β : Type) where
  /-- state inherited from `ChPhysicsItem` -/
  item : β
  /-- all constraints of link disabled because of user needs -/
  disabled : Bool
  /-- link data is valid -/
  valid : Bool
  /-- link is broken because of excessive pulling/pushing -/
  broken : Bool

section link

variable {β : Type}

/-- The constructor `ChLinkBase() : broken(false), valid(true), disabled(false)`. -/
def ChLinkBase.new (item : β) : ChLinkBase β := ⟨item, false, true, false⟩

/-- `bool IsValid() { return valid; }` -/
def ChLinkBase.IsValid (l : ChLinkBase β) : Bool := l.valid

/-- `void SetValid(bool mon) { valid = mon; }` -/
def ChLinkBase.SetValid (l : ChLinkBase β) (mon : Bool) : ChLinkBase β :=
  ⟨l.item, l.disabled, mon, l.broken⟩

/-- `bool IsDisabled() { return disabled; }` -/
def ChLinkBase.IsDisabled (l : ChLinkBase β) : Bool := l.disabled

/-- `virtual void SetDisabled(bool mdis) { disabled = mdis; }` -/
def ChLinkBase.SetDisabled (l : ChLinkBase β) (mdis : Bool) : ChLinkBase β :=
  ⟨l.item, mdis, l.valid, l.broken⟩

/-- `bool IsBroken() { return broken; }` -/
def ChLinkBase.IsBroken (l : ChLinkBase β) : Bool := l.broken

/-- `virtual void SetBroken(bool mon) { broken = mon; }` -/
def ChLinkBase.SetBroken (l : ChLinkBase β) (mon : Bool) : ChLinkBase β :=
  ⟨l.item, l.disabled, l.valid, mon⟩

/-- `bool IsActive() { return (valid && !disabled && !broken); }` -/
def ChLinkBase.IsActive (l : ChLinkBase β) : Bool := (l.valid && !l.disabled && !l.broken)

end link

/-! ## Operations on a link, as calls -/

/-- One call of a flag accessor of `ChLinkBase` (`ChLinkBase.h` lines 100-121). -/
inductive LinkCall where
  | IsValid
  | SetValid (mon : Bool)
  | IsDisabled
  | SetDisabled (mdis : Bool)
  | IsBroken
  | SetBroken (mon : Bool)
  | IsActive
deriving DecidableEq, Repr

section linkcalls

variable {β : Type}

/-- The effect of one call: the state of the link after it, and the value it returns
(`none` for the `void` setters).  The bodies of the four queries are a single `return`
of an expression without assignment, so they hand back the state they received. -/
def ChLinkBase.call (l : ChLinkBase β) : LinkCall → ChLinkBase β × Option Bool
  | .IsValid => (l, some l.IsValid)
  | .SetValid mon => (l.SetValid mon, none)
  | .IsDisabled => (l, some l.IsDisabled)
  | .SetDisabled mdis => (l.SetDisabled mdis, none)
  | .IsBroken => (l, some l.IsBroken)
  | .SetBroken mon => (l.SetBroken mon, none)
  | .IsActive => (l, some l.IsActive)

/-- The state of a link after a finite sequence of calls, first call first. -/
def ChLinkBase.run (l : ChLinkBase β) (calls : List LinkCall) : ChLinkBase β :=
  calls.foldl (fun s k => (s.call k).1) l

end linkcalls

/-! ## Link type identifiers -/

/-- `#define LNK_LOCK 0` -/
def LNK_LOCK : Int := 0
/-- `#define LNK_SPHERICAL 1` -/
def LNK_SPHERICAL : Int := 1
/-- `#define LNK_POINTPLANE 2` -/
def LNK_POINTPLANE : Int := 2
/-- `#define LNK_POINTLINE 3` -/
def LNK_POINTLINE : Int := 3
/-- `#define LNK_CYLINDRICAL 4` -/
def LNK_CYLINDRICAL : Int := 4
/-- `#define LNK_PRISMATIC 5` -/
def LNK_PRISMATIC : Int := 5
/-- `#define LNK_PLANEPLANE 6` -/
def LNK_PLANEPLANE : Int := 6
/-- `#define LNK_OLDHAM 7` -/
def LNK_OLDHAM : Int := 7
/-- `#define LNK_REVOLUTE 8` -/
def LNK_REVOLUTE : Int := 8
/-- `#define LNK_RACKPIN 9` -/
def LNK_RACKPIN : Int := 9
/-- `#define LNK_FREE 10` -/
def LNK_FREE : Int := 10
/-- `#define LNK_SCREW 12` -/
def LNK_SCREW : Int := 12
/-- `#define LNK_ALIGN 13` -/
def LNK_ALIGN : Int := 13
/-- `#define LNK_PARALLEL 14` -/
def LNK_PARALLEL : Int := 14
/-- `#define LNK_PERPEND 15` -/
def LNK_PERPEND : Int := 15
/-- `#define LNK_UNIVERSAL 16` -/
def LNK_UNIVERSAL : Int := 16
/-- `#define LNK_GEAR 17` -/
def LNK_GEAR : Int := 17
/-- `#define LNK_COUPLER 18` -/
def LNK_COUPLER : Int := 18
/-- `#define LNK_DISTANCE 19` -/
def LNK_DISTANCE : Int := 19
/-- `#define LNK_POINTSPLINE 20` -/
def LNK_POINTSPLINE : Int := 20
/-- `#define LNK_TRAJECTORY 22` -/
def LNK_TRAJECTORY : Int := 22
/-- `#define LNK_REVOLUTESPHERICAL 23` -/
def LNK_REVOLUTESPHERICAL : Int := 23
/-- `#define LNK_REVOLUTETRANSLATIONAL 24` -/
def LNK_REVOLUTETRANSLATIONAL : Int := 24
/-- `#define LNK_SPRING 25` -/
def LNK_SPRING : Int := 25
/-- `#define LNK_WHEEL 26` -/
def LNK_WHEEL : Int := 26
/-- `#define LNK_LINACTUATOR 27` -/
def LNK_LINACTUATOR : Int := 27
/-- `#define LNK_BASE 29` -/
def LNK_BASE : Int := 29
/-- `#define LNK_SPRING_CALLBACK 30` -/
def LNK_SPRING_CALLBACK : Int := 30
/-- `#define LNK_ENGINE 31` -/
def LNK_ENGINE : Int := 31
/-- `#define LNK_BRAKE 32` -/
def LNK_BRAKE : Int := 32
/-- `#define LNK_PNEUMATIC 33` -/
def LNK_PNEUMATIC : Int := 33
/-- `#define LNK_CLEARANCE 34` -/
def LNK_CLEARANCE : Int := 34
/-- `#define LNK_FASTCONTACT 35` -/
def LNK_FASTCONTACT : Int := 35
/-- `#define LNK_GEOMETRICDISTANCE 37` -/
def LNK_GEOMETRICDISTANCE : Int := 37
/-- `#define LNK_PULLEY 38` -/
def LNK_PULLEY : Int := 38
/-- `#define LNK_CONTACT 40` -/
def LNK_CONTACT : Int := 40
/-- `#define LNK_MATE 41` -/
def LNK_MATE : Int := 41
/-- `#define LNK_MATEGENERIC 42` -/
def LNK_MATEGENERIC : Int := 42
/-- `#define LNK_MATEPLANE 43` -/
def LNK_MATEPLANE : Int := 43
/-- `#define LNK_MATECOAXIAL 44` -/
def LNK_MATECOAXIAL : Int := 44
/-- `#define LNK_MATESPHERICAL 45` -/
def LNK_MATESPHERICAL : Int := 45
/-- `#define LNK_MATEXDISTANCE 48` -/
def LNK_MATEXDISTANCE : Int := 48
/-- `#define LNK_MATEPARALLEL 46` -/
def LNK_MATEPARALLEL : Int := 46
/-- `#define LNK_MATEORTHOGONAL 47` -/
def LNK_MATEORTHOGONAL : Int := 47
/-- `#define LNK_REVOLUTEPRISMATIC 48` -/
def LNK_REVOLUTEPRISMATIC : Int := 48
/-- `#define LNK_MATEFIX 49` -/
def LNK_MATEFIX : Int := 49

/-- The named constraint kinds of `ChLinkBase.h` lines 29-74, one per `#define`, in the
order of the source. -/
inductive LinkKind where
  | LOCK | SPHERICAL | POINTPLANE | POINTLINE | CYLINDRICAL | PRISMATIC | PLANEPLANE
  | OLDHAM | REVOLUTE | RACKPIN | FREE | SCREW | ALIGN | PARALLEL | PERPEND | UNIVERSAL
  | GEAR | COUPLER | DISTANCE | POINTSPLINE | TRAJECTORY | REVOLUTESPHERICAL
  | REVOLUTETRANSLATIONAL | SPRING | WHEEL | LINACTUATOR | BASE | SPRING_CALLBACK | ENGINE
  | BRAKE | PNEUMATIC | CLEARANCE | FASTCONTACT | GEOMETRICDISTANCE | PULLEY | CONTACT
  | MATE | MATEGENERIC | MATEPLANE | MATECOAXIAL | MATESPHERICAL | MATEXDISTANCE
  | MATEPARALLEL | MATEORTHOGONAL | REVOLUTEPRISMATIC | MATEFIX
deriving DecidableEq, Repr

/-- The type tag that the source defines for a named constraint kind. -/
def LinkKind.tag : LinkKind → Int
  | .LOCK => LNK_LOCK
  | .SPHERICAL => LNK_SPHERICAL
  | .POINTPLANE => LNK_POINTPLANE
  | .POINTLINE => LNK_POINTLINE
  | .CYLINDRICAL => LNK_CYLINDRICAL
  | .PRISMATIC => LNK_PRISMATIC
  | .PLANEPLANE => LNK_PLANEPLANE
  | .OLDHAM => LNK_OLDHAM
  | .REVOLUTE => LNK_REVOLUTE
  | .RACKPIN => LNK_RACKPIN
  | .FREE => LNK_FREE
  | .SCREW => LNK_SCREW
  | .ALIGN => LNK_ALIGN
  | .PARALLEL => LNK_PARALLEL
  | .PERPEND => LNK_PERPEND
  | .UNIVERSAL => LNK_UNIVERSAL
  | .GEAR => LNK_GEAR
  | .COUPLER => LNK_COUPLER
  | .DISTANCE => LNK_DISTANCE
  | .POINTSPLINE => LNK_POINTSPLINE
  | .TRAJECTORY => LNK_TRAJECTORY
  | .REVOLUTESPHERICAL => LNK_REVOLUTESPHERICAL
  | .REVOLUTETRANSLATIONAL => LNK_REVOLUTETRANSLATIONAL
  | .SPRING => LNK_SPRING
  | .WHEEL => LNK_WHEEL
  | .LINACTUATOR => LNK_LINACTUATOR
  | .BASE => LNK_BASE
  | .SPRING_CALLBACK => LNK_SPRING_CALLBACK
  | .ENGINE => LNK_ENGINE
  | .BRAKE => LNK_BRAKE
  | .PNEUMATIC => LNK_PNEUMATIC
  | .CLEARANCE => LNK_CLEARANCE
  | .FASTCONTACT => LNK_FASTCONTACT
  | .GEOMETRICDISTANCE => LNK_GEOMETRICDISTANCE
  | .PULLEY => LNK_PULLEY
  | .CONTACT => LNK_CONTACT
  | .MATE => LNK_MATE
  | .MATEGENERIC => LNK_MATEGENERIC
  | .MATEPLANE => LNK_MATEPLANE
  | .MATECOAXIAL => LNK_MATECOAXIAL
  | .MATESPHERICAL => LNK_MATESPHERICAL
  | .MATEXDISTANCE => LNK_MATEXDISTANCE
  | .MATEPARALLEL => LNK_MATEPARALLEL
  | .MATEORTHOGONAL => LNK_MATEORTHOGONAL
  | .REVOLUTEPRISMATIC => LNK_REVOLUTEPRISMATIC
  | .MATEFIX => LNK_MATEFIX

/-- All named constraint kinds, in the order of the source. -/
def LinkKind.all : List LinkKind :=
  [.LOCK, .SPHERICAL, .POINTPLANE, .POINTLINE, .CYLINDRICAL, .PRISMATIC, .PLANEPLANE,
   .OLDHAM, .REVOLUTE, .RACKPIN, .FREE, .SCREW, .ALIGN, .PARALLEL, .PERPEND, .UNIVERSAL,
   .GEAR, .COUPLER, .DISTANCE, .POINTSPLINE, .TRAJECTORY, .REVOLUTESPHERICAL,
   .REVOLUTETRANSLATIONAL, .SPRING, .WHEEL, .LINACTUATOR, .BASE, .SPRING_CALLBACK, .ENGINE,
   .BRAKE, .PNEUMATIC, .CLEARANCE, .FASTCONTACT, .GEOMETRICDISTANCE, .PULLEY, .CONTACT,
   .MATE, .MATEGENERIC, .MATEPLANE, .MATECOAXIAL, .MATESPHERICAL, .MATEXDISTANCE,
   .MATEPARALLEL, .MATEORTHOGONAL, .REVOLUTEPRISMATIC, .MATEFIX]

/-- `virtual int GetType() const { return LNK_BASE; }` (`ChLinkBase.h` line 124). -/
def ChLinkBase.GetType {β : Type} (_l : ChLinkBase β) : Int := LNK_BASE

/-! ## The sparse matrix object

The data members of the base class, its constructor and its non-virtual members.  A
backend is a class derived from `ChSparseMatrix`: its state is the three protected
members of the base together with the members it adds, and its `SetElement` acts on
all of them. -/

/-- `enum SymmetryType` (`ChSparseMatrix.h` lines 29-34). -/
inductive SymmetryType where
  /-- unsymmetric matrix -/
  | GENERAL
  /-- symmetric positive definite -/
  | SYMMETRIC_POSDEF
  /-- symmetric indefinite -/
  | SYMMETRIC_INDEF
  /-- structurally symmetric -/
  | STRUCTURAL_SYMMETRIC
deriving DecidableEq, Repr

/-- The state of a sparse matrix object: the protected members `m_num_rows`,
`m_num_cols`, `m_type` of the base class (`ChSparseMatrix.h` lines 114-116) and the
members `derived` that the backend adds. -/
structure ChSparseMatrixData (τ : Type) where
  /-- number of rows -/
  m_num_rows : Int
  /-- number of columns -/
  m_num_cols : Int
  /-- matrix type -/
  m_type : SymmetryType
  /-- members of the derived class -/
  derived : τ

section object

variable {τ V : Type}

/-- The constructor `ChSparseMatrix(int nrows, int ncols) : m_num_rows(nrows),
m_num_cols(ncols), m_type(GENERAL)` (`ChSparseMatrix.h` line 36), on top of the members
of the derived class. -/
def ChSparseMatrixData.ctor (nrows ncols : Int) (derived : τ) : ChSparseMatrixData τ :=
  ⟨nrows, ncols, SymmetryType.GENERAL, derived⟩

/-- The constructor called without arguments: the defaults are `nrows = 0`, `ncols = 0`. -/
def ChSparseMatrixData.ctorDefault (derived : τ) : ChSparseMatrixData τ :=
  ChSparseMatrixData.ctor 0 0 derived

/-- `int GetNumRows() const { return m_num_rows; }` -/
def ChSparseMatrixData.GetNumRows (o : ChSparseMatrixData τ) : Int := o.m_num_rows

/-- `int GetNumColumns() const { return m_num_cols; }` -/
def ChSparseMatrixData.GetNumColumns (o : ChSparseMatrixData τ) : Int := o.m_num_cols

/-- `void SetType(SymmetryType type) { m_type = type; }` -/
def ChSparseMatrixData.SetType (o : ChSparseMatrixData τ) (type : SymmetryType) :
    ChSparseMatrixData τ :=
  ⟨o.m_num_rows, o.m_num_cols, type, o.derived⟩

/-- `SymmetryType GetType() const { return m_type; }` -/
def ChSparseMatrixData.GetType (o : ChSparseMatrixData τ) : SymmetryType := o.m_type

/-- `virtual int* GetCSR_RowIndexArray() const { return nullptr; }`; the null pointer
is `none`. -/
def ChSparseMatrixData.GetCSR_RowIndexArray (_o : ChSparseMatrixData τ) : Option (List Int) :=
  none

/-- `virtual int* GetCSR_ColIndexArray() const { return nullptr; }` -/
def ChSparseMatrixData.GetCSR_ColIndexArray (_o : ChSparseMatrixData τ) : Option (List Int) :=
  none

/-- `virtual double* GetCSR_ValueArray() const { return nullptr; }`; the values are of the
type `V` of the matrix entries. -/
def ChSparseMatrixData.GetCSR_ValueArray (V : Type) (_o : ChSparseMatrixData τ) :
    Option (List V) :=
  none

/-- A backend whose `SetElement` leaves the three members of the base class as they
are. -/
def KeepsMembers (M : ChSparseMatrix (ChSparseMatrixData τ) V) : Prop :=
  ∀ (o : ChSparseMatrixData τ) (r c : Int) (v : V) (ow : Bool),
    (M.SetElement o r c v ow).m_num_rows = o.m_num_rows ∧
    (M.SetElement o r c v ow).m_num_cols = o.m_num_cols ∧
    (M.SetElement o r c v ow).m_type = o.m_type

/-- The backend object made of the base members and of a backend state `τ`: the element
primitives act on the backend state. -/
def objectBackend (M : ChSparseMatrix τ V) : ChSparseMatrix (ChSparseMatrixData τ) V where
  SetElement o r c v overwrite :=
    ⟨o.m_num_rows, o.m_num_cols, o.m_type, M.SetElement o.derived r c v overwrite⟩
  GetElement o r c := M.GetElement o.derived r c

end object

/-! ## Paste operations and base-class operations, as calls -/

/-- One call of a paste operation of the base class, with its arguments
(`ChSparseMatrix.h` lines 52-111). -/
inductive PasteOp (V : Type) where
  | PasteMatrix (matra : ChMatrix V) (insrow inscol : Int) (overwrite transp : Bool)
  | PasteClippedMatrix (matra : ChMatrix V) (cliprow clipcol nrows ncolumns insrow inscol : Int)
      (overwrite : Bool)
  | PasteTranspMatrix (matra : ChMatrix V) (insrow inscol : Int)
  | PasteSumMatrix (matra : ChMatrix V) (insrow inscol : Int)
  | PasteSumTranspMatrix (matra : ChMatrix V) (insrow inscol : Int)
  | PasteSumClippedMatrix (matra : ChMatrix V)
      (cliprow clipcol nrows ncolumns insrow inscol : Int)

/-- One call of an operation of the base class that changes the object: `SetType` or a
paste. -/
inductive BaseOp (V : Type) where
  | SetType (type : SymmetryType)
  | paste (op : PasteOp V)

section ops

variable {σ τ V : Type}

/-- Perform a paste call on a backend. -/
def PasteOp.apply [DecidableEq V] [Zero V] (M : ChSparseMatrix σ V) (s : σ) : PasteOp V → σ
  | .PasteMatrix matra insrow inscol overwrite transp =>
    M.PasteMatrix s matra insrow inscol overwrite transp
  | .PasteClippedMatrix matra cliprow clipcol nrows ncolumns insrow inscol overwrite =>
    M.PasteClippedMatrix s matra cliprow clipcol nrows ncolumns insrow inscol overwrite
  | .PasteTranspMatrix matra insrow inscol => M.PasteTranspMatrix s matra insrow inscol
  | .PasteSumMatrix matra insrow inscol => M.PasteSumMatrix s matra insrow inscol
  | .PasteSumTranspMatrix matra insrow inscol => M.PasteSumTranspMatrix s matra insrow inscol
  | .PasteSumClippedMatrix matra cliprow clipcol nrows ncolumns insrow inscol =>
    M.PasteSumClippedMatrix s matra cliprow clipcol nrows ncolumns insrow inscol

/-- The sequence of `SetElement` calls that a paste call issues: what the recording
backend has received after it. -/
def PasteOp.calls [DecidableEq V] [Zero V] [Add V] (op : PasteOp V) : List (SetCall V) :=
  op.apply recorder []

/-- Perform a base-class call on a sparse matrix object. -/
def BaseOp.apply [DecidableEq V] [Zero V] (M : ChSparseMatrix (ChSparseMatrixData τ) V)
    (o : ChSparseMatrixData τ) : BaseOp V → ChSparseMatrixData τ
  | .SetType type => o.SetType type
  | .paste op => op.apply M o

/-- The object after a finite sequence of base-class calls, first call first. -/
def runBaseOps [DecidableEq V] [Zero V] (M : ChSparseMatrix (ChSparseMatrixData τ) V)
    (o : ChSparseMatrixData τ) (ops : List (BaseOp V)) : ChSparseMatrixData τ :=
  ops.foldl (fun acc op => op.apply M acc) o

end ops

/-! ## Footprints and block reads -/

section footprint

variable {V : Type}

/-- The call `k` addresses a cell of the rectangle `[r, r + n) x [c, c + m)`. -/
def InFootprint (r c n m : Int) (k : SetCall V) : Prop :=
  r ≤ k.row ∧ k.row < r + n ∧ c ≤ k.col ∧ k.col < c + m

/-- The call `k` addresses a cell of a matrix with `rows` rows and `cols` columns. -/
def InRange (rows cols : Int) (k : SetCall V) : Prop :=
  0 ≤ k.row ∧ k.row < rows ∧ 0 ≤ k.col ∧ k.col < cols

/-- The block of the shape of `B` whose entry `(i, j)` is the pair `(i, j)`.  A paste of
this block hands to `SetElement`, as values, the indices of the entries it reads. -/
def ChMatrix.indices (B : ChMatrix V) : ChMatrix (Int × Int) :=
  ⟨B.rows, B.columns, fun i j => (i, j)⟩

/-- The indices of the block entries that
`PasteClippedMatrix(B, cliprow, clipcol, nrows, ncolumns, ..)` reads, in order: the
values of the calls it issues when run on `B.indices`. -/
def PasteClippedMatrix_reads (B : ChMatrix V) (cliprow clipcol nrows ncolumns : Int) :
    List (Int × Int) :=
  (recorder.PasteClippedMatrix [] B.indices cliprow clipcol nrows ncolumns 0 0 true).map
    SetCall.val

end footprint

/-! ## The contribution of a block to a cell -/

/-- The entry of `B` that a paste at `(r, c)` places over the cell `(r', c')`: entry
`(r' - r, c' - c)` when the cell is in the footprint `[r, r+rows(B)) x [c, c+cols(B))`,
and zero outside of it. -/
def footprintValue {V : Type} [Zero V] (B : ChMatrix V) (r c r' c' : Int) : V :=
  if r ≤ r' ∧ r' < r + B.rows ∧ c ≤ c' ∧ c' < c + B.columns then B.elem (r' - r) (c' - c)
  else 0

/-! ## Small integer vectors (`chrono_parallel/math/other_types.h`)

The members are `unsigned int`.  The functions below only copy and compare them, without
arithmetic, so the members are natural numbers and no wrap-around is involved; every
statement holds in particular for members below `2 ^ 32`. -/

/-- `struct uint4 { unsigned int x, y, z, w; };` (`other_types.h` lines 113-115). -/
structure uint4 where
  x : Nat
  y : Nat
  z : Nat
  w : Nat
deriving DecidableEq, Repr

/-- `struct uvec3 { unsigned int x, y, z; };` (`other_types.h` lines 128-130). -/
structure uvec3 where
  x : Nat
  y : Nat
  z : Nat
deriving DecidableEq, Repr

/-- `template <typename T> inline void Swap(T& a, T& b)` (`real.h` lines 323-328):
`T temp = a; a = b; b = temp;`.  The two references are returned as a pair, new `a`
first. -/
def Swap {T : Type} (a b : T) : T × T :=
  let temp := a
  let a := b
  let b := temp
  (a, b)

/-- `static inline uint4 Sort(const uint4& a)` (`other_types.h` lines 170-193): six
compare-and-swap steps on the copy `t`, on the pairs `(x, w)`, `(x, z)`, `(x, y)`,
`(y, w)`, `(y, z)`, `(z, w)` in this order. -/
def uint4.Sort (a : uint4) : uint4 :=
  let t := a
  let t : uint4 := if t.x > t.w then ⟨(Swap t.x t.w).1, t.y, t.z, (Swap t.x t.w).2⟩ else t
  let t : uint4 := if t.x > t.z then ⟨(Swap t.x t.z).1, t.y, (Swap t.x t.z).2, t.w⟩ else t
  let t : uint4 := if t.x > t.y then ⟨(Swap t.x t.y).1, (Swap t.x t.y).2, t.z, t.w⟩ else t
  let t : uint4 := if t.y > t.w then ⟨t.x, (Swap t.y t.w).1, t.z, (Swap t.y t.w).2⟩ else t
  let t : uint4 := if t.y > t.z then ⟨t.x, (Swap t.y t.z).1, (Swap t.y t.z).2, t.w⟩ else t
  let t : uint4 := if t.z > t.w then ⟨t.x, t.y, (Swap t.z t.w).1, (Swap t.z t.w).2⟩ else t
  t

/-- The first step of `Sort`: `if (t.x > t.w) Swap(t.x, t.w);` -/
def uint4.stepXW (t : uint4) : uint4 :=
  if t.x > t.w then ⟨(Swap t.x t.w).1, t.y, t.z, (Swap t.x t.w).2⟩ else t

/-- The second step of `Sort`: `if (t.x > t.z) Swap(t.x, t.z);` -/
def uint4.stepXZ (t : uint4) : uint4 :=
  if t.x > t.z then ⟨(Swap t.x t.z).1, t.y, (Swap t.x t.z).2, t.w⟩ else t

/-- The third step of `Sort`: `if (t.x > t.y) Swap(t.x, t.y);` -/
def uint4.stepXY (t : uint4) : uint4 :=
  if t.x > t.y then ⟨(Swap t.x t.y).1, (Swap t.x t.y).2, t.z, t.w⟩ else t

/-- The fourth step of `Sort`: `if (t.y > t.w) Swap(t.y, t.w);` -/
def uint4.stepYW (t : uint4) : uint4 :=
  if t.y > t.w then ⟨t.x, (Swap t.y t.w).1, t.z, (Swap t.y t.w).2⟩ else t

/-- The fifth step of `Sort`: `if (t.y > t.z) Swap(t.y, t.z);` -/
def uint4.stepYZ (t : uint4) : uint4 :=
  if t.y > t.z then ⟨t.x, (Swap t.y t.z).1, (Swap t.y t.z).2, t.w⟩ else t

/-- The sixth step of `Sort`: `if (t.z > t.w) Swap(t.z, t.w);` -/
def uint4.stepZW (t : uint4) : uint4 :=
  if t.z > t.w then ⟨t.x, t.y, (Swap t.z t.w).1, (Swap t.z t.w).2⟩ else t

/-- The members of a `uint4` as a multiset. -/
def uint4.members (t : uint4) : Multiset Nat := {t.x, t.y, t.z, t.w}

/-- `static bool operator<(const uvec3& a, const uvec3& b)` (`other_types.h` lines
214-234). -/
def uvec3.lt (a b : uvec3) : Bool :=
  if a.x < b.x then true
  else if b.x < a.x then false
  else if a.y < b.y then true
  else if b.y < a.y then false
  else if a.z < b.z then true
  else if b.z < a.z then false
  else false

/-- `static bool operator>(const uvec3& a, const uvec3& b)` (`other_types.h` lines
235-255). -/
def uvec3.gt (a b : uvec3) : Bool :=
  if a.x > b.x then true
  else if b.x > a.x then false
  else if a.y > b.y then true
  else if b.y > a.y then false
  else if a.z > b.z then true
  else if b.z > a.z then false
  else false

/-- `static bool operator==(const uvec3& lhs, const uvec3& rhs)` (`other_types.h` lines
256-258). -/
def uvec3.eq (lhs rhs : uvec3) : Bool :=
  (lhs.x == rhs.x) && (lhs.y == rhs.y) && (lhs.z == rhs.z)

/-- The triple `(a.x, a.y, a.z)` precedes `(b.x, b.y, b.z)` in the lexicographic order
of triples of naturals. -/
def lexPrecedes (a b : uvec3) : Prop :=
  toLex (a.x, toLex (a.y, a.z)) < toLex (b.x, toLex (b.y, b.z))

/-! ## Example data -/


/-- A 2 x 3 block with two zero entries. -/
def exampleBlock : ChMatrix Int := ChMatrix.ofRows 2 3 [[1, 0, 2], [0, 3, 4]]

/-- A 3 x 3 block whose lower right 2 x 2 corner holds a zero. -/
def exampleBlock3 : ChMatrix Int := ChMatrix.ofRows 3 3 [[1, 2, 3], [4, 5, 0], [7, 8, 9]]

/-- A destination in which every cell holds a nonzero value, `100 + row + 10 * col`
on the cells used below. -/
def exampleDest : Int → Int → Int := fun r c => 100 + r + 10 * c

/-- A symmetric 2 x 2 block. -/
def exampleSymBlock : ChMatrix Int := ChMatrix.ofRows 2 2 [[1, 2], [2, 3]]

/-- A 5 x 5 matrix object of the recording backend, tagged with a symmetry type. -/
def exampleObject (type : SymmetryType) : ChSparseMatrixData (List (SetCall Int)) :=
  (ChSparseMatrixData.ctor 5 5 []).SetType type

/-! ## Lemmas on counted loops and replay -/

section looplemmas

variable {σ V : Type}

theorem forLoop_nonpos (n : Int) (hn : n ≤ 0) (body : Int → σ → σ) (s : σ) :
    forLoop n body s = s := by
  have h0 : n.toNat = 0 := by omega
  simp [forLoop, h0]

theorem forLoop_succ (k : Nat) (body : Int → σ → σ) (s : σ) :
    forLoop ((k : Int) + 1) body s = body (k : Int) (forLoop (k : Int) body s) := by
  have h1 : ((k : Int) + 1).toNat = k + 1 := by omega
  simp [forLoop, h1, List.range_succ, List.foldl_append]

theorem forLoop_toNat (n : Int) (body : Int → σ → σ) (s : σ) :
    forLoop n body s = forLoop (n.toNat : Int) body s := by
  have h : ((n.toNat : Int)).toNat = n.toNat := by omega
  unfold forLoop
  rw [h]

theorem replay_append (M : ChSparseMatrix σ V) (s : σ) (xs ys : List (SetCall V)) :
    replay M s (xs ++ ys) = replay M (replay M s xs) ys := by
  simp [replay, List.foldl_append]

theorem replay_recorder [Zero V] [Add V] (log xs : List (SetCall V)) :
    replay recorder log xs = log ++ xs := by
  induction xs generalizing log with
  | nil => simp [replay]
  | cons x xs ih =>
    have hstep : replay recorder log (x :: xs) = replay recorder (log ++ [x]) xs := by
      simp [replay, recorder]
    rw [hstep, ih]; simp

end looplemmas

/-! ## Reading a cell after a scan -/

section scanlemmas

variable {σ V : Type}

theorem writeCell_none (M : ChSparseMatrix σ V) (ow : Bool) (g : Int → Int → Option V)
    (r c i j : Int) (s : σ) (hg : g i j = none) : writeCell M ow g r c i j s = s := by
  simp [writeCell, hg]

theorem writeCell_some (M : ChSparseMatrix σ V) (ow : Bool) (g : Int → Int → Option V)
    (r c i j : Int) (s : σ) (v : V) (hg : g i j = some v) :
    writeCell M ow g r c i j s = M.SetElement s (r + i) (c + j) v ow := by
  simp [writeCell, hg]

theorem rowScan_get (M : ChSparseMatrix σ V) (ow : Bool) (f : V → V → V) (hM : Obeys M ow f)
    (g : Int → Int → Option V) (r c i : Int) (m : Nat) (s : σ) (r' c' : Int) :
    M.GetElement (forLoop (m : Int) (fun j s2 => writeCell M ow g r c i j s2) s) r' c' =
      if r' = r + i ∧ c ≤ c' ∧ c' < c + m then
        cellResult f (M.GetElement s r' c') (g i (c' - c))
      else M.GetElement s r' c' := by
  induction m with
  | zero =>
    have hno : ¬ (r' = r + i ∧ c ≤ c' ∧ c' < c + ((0 : Nat) : Int)) := by omega
    rw [if_neg hno, forLoop_nonpos _ (by simp)]
  | succ k ih =>
    have hcast : ((k + 1 : Nat) : Int) = (k : Int) + 1 := by push_cast; rfl
    rw [hcast, forLoop_succ]
    by_cases hhit : r' = r + i ∧ c' = c + k
    · obtain ⟨hr, hc⟩ := hhit
      have e : c' - c = k := by omega
      have hyes : r' = r + i ∧ c ≤ c' ∧ c' < c + ((k : Int) + 1) := by omega
      have hno : ¬ (r' = r + i ∧ c ≤ c' ∧ c' < c + (k : Int)) := by omega
      rw [if_pos hyes, e]
      cases hg : g i k with
      | none =>
        rw [writeCell_none M ow g r c i k _ hg, ih, if_neg hno]
        rfl
      | some v =>
        rw [writeCell_some M ow g r c i k _ v hg, hM, if_pos ⟨hr, hc⟩, ← hr, ← hc, ih,
          if_neg hno]
        rfl
    · have hiff : (r' = r + i ∧ c ≤ c' ∧ c' < c + ((k : Int) + 1)) ↔
          (r' = r + i ∧ c ≤ c' ∧ c' < c + (k : Int)) := by
        constructor <;> intro h <;> refine ⟨h.1, h.2.1, ?_⟩ <;> omega
      rw [if_congr hiff rfl rfl, ← ih]
      cases hg : g i k with
      | none => rw [writeCell_none M ow g r c i k _ hg]
      | some v => rw [writeCell_some M ow g r c i k _ v hg, hM, if_neg hhit]

theorem rectWrite_get_nat (M : ChSparseMatrix σ V) (ow : Bool) (f : V → V → V) (hM : Obeys M ow f)
    (g : Int → Int → Option V) (r c : Int) (n m : Nat) (s : σ) (r' c' : Int) :
    M.GetElement (rectWrite M ow g r c n m s) r' c' =
      if r ≤ r' ∧ r' < r + n ∧ c ≤ c' ∧ c' < c + m then
        cellResult f (M.GetElement s r' c') (g (r' - r) (c' - c))
      else M.GetElement s r' c' := by
  unfold rectWrite
  induction n with
  | zero =>
    have hno : ¬ (r ≤ r' ∧ r' < r + ((0 : Nat) : Int) ∧ c ≤ c' ∧ c' < c + m) := by omega
    rw [if_neg hno, forLoop_nonpos _ (by simp)]
  | succ k ih =>
    have hcast : ((k + 1 : Nat) : Int) = (k : Int) + 1 := by push_cast; rfl
    rw [hcast, forLoop_succ, rowScan_get M ow f hM, ih]
    by_cases hrow : r' = r + k
    · have e : r' - r = k := by omega
      have hno : ¬ (r ≤ r' ∧ r' < r + (k : Int) ∧ c ≤ c' ∧ c' < c + m) := by omega
      rw [if_neg hno, e]
      by_cases hcol : c ≤ c' ∧ c' < c + m
      · rw [if_pos ⟨hrow, hcol⟩, if_pos (by omega)]
      · rw [if_neg (by tauto), if_neg (by omega)]
    · rw [if_neg (by tauto)]
      have hiff : (r ≤ r' ∧ r' < r + ((k : Int) + 1) ∧ c ≤ c' ∧ c' < c + m) ↔
          (r ≤ r' ∧ r' < r + (k : Int) ∧ c ≤ c' ∧ c' < c + m) := by
        constructor <;> intro h <;> refine ⟨h.1, ?_, h.2.2.1, h.2.2.2⟩ <;> omega
      rw [if_congr hiff rfl rfl]

theorem rectWrite_toNat (M : ChSparseMatrix σ V) (ow : Bool) (g : Int → Int → Option V)
    (r c n m : Int) (s : σ) :
    rectWrite M ow g r c n m s = rectWrite M ow g r c (n.toNat : Int) (m.toNat : Int) s := by
  unfold rectWrite
  rw [forLoop_toNat n]
  have hbody : (fun (i : Int) (s1 : σ) => forLoop m (fun j s2 => writeCell M ow g r c i j s2) s1) =
      (fun (i : Int) (s1 : σ) =>
        forLoop (m.toNat : Int) (fun j s2 => writeCell M ow g r c i j s2) s1) := by
    funext i s1
    exact forLoop_toNat m _ s1
  rw [hbody]

/-- Reading a cell after a scan. -/
theorem rectWrite_get (M : ChSparseMatrix σ V) (ow : Bool) (f : V → V → V) (hM : Obeys M ow f)
    (g : Int → Int → Option V) (r c n m : Int) (s : σ) (r' c' : Int) :
    M.GetElement (rectWrite M ow g r c n m s) r' c' =
      if r ≤ r' ∧ r' < r + n ∧ c ≤ c' ∧ c' < c + m then
        cellResult f (M.GetElement s r' c') (g (r' - r) (c' - c))
      else M.GetElement s r' c' := by
  rw [rectWrite_toNat, rectWrite_get_nat M ow f hM]
  have hiff : (r ≤ r' ∧ r' < r + (n.toNat : Int) ∧ c ≤ c' ∧ c' < c + (m.toNat : Int)) ↔
      (r ≤ r' ∧ r' < r + n ∧ c ≤ c' ∧ c' < c + m) := by
    constructor <;> intro h <;> refine ⟨h.1, ?_, h.2.2.1, ?_⟩ <;> omega
  rw [if_congr hiff rfl rfl]

end scanlemmas

/-! ## The call sequence of a scan -/

section tracelemmas

variable {σ V : Type}

theorem foldl_eq_replay (M : ChSparseMatrix σ V) (body : Nat → σ → σ)
    (calls : Nat → List (SetCall V)) (hbody : ∀ k s, body k s = replay M s (calls k))
    (L : List Nat) (s : σ) :
    L.foldl (fun acc k => body k acc) s = replay M s (L.flatMap calls) := by
  induction L generalizing s with
  | nil => simp [replay]
  | cons x xs ih =>
    rw [List.foldl_cons, ih, hbody, List.flatMap_cons, replay_append]

theorem rowScan_eq_replay (M : ChSparseMatrix σ V) (ow : Bool) (g : Int → Int → Option V)
    (r c m i : Int) (s : σ) :
    forLoop m (fun j s2 => writeCell M ow g r c i j s2) s = replay M s (rowCalls ow g r c m i) := by
  unfold forLoop rowCalls
  generalize List.range m.toNat = L
  induction L generalizing s with
  | nil => simp [replay]
  | cons x xs ih =>
    rw [List.foldl_cons, ih]
    beta_reduce
    cases hg : g i (x : Int) with
    | none => rw [writeCell_none M ow g r c i x s hg]; simp [List.filterMap_cons, hg]
    | some v =>
      rw [writeCell_some M ow g r c i x s v hg]
      simp [List.filterMap_cons, hg, replay]

/-- A scan on any backend is the replay of its call sequence. -/
theorem rectWrite_eq_replay (M : ChSparseMatrix σ V) (ow : Bool) (g : Int → Int → Option V)
    (r c n m : Int) (s : σ) :
    rectWrite M ow g r c n m s = replay M s (rectCalls ow g r c n m) := by
  unfold rectWrite forLoop rectCalls
  exact foldl_eq_replay M _ _ (fun k s1 => rowScan_eq_replay M ow g r c m k s1) _ s

/-- On the recording backend a scan appends its call sequence to the log. -/
theorem rectWrite_recorder [Zero V] [Add V] (ow : Bool) (g : Int → Int → Option V)
    (r c n m : Int) (log : List (SetCall V)) :
    rectWrite recorder ow g r c n m log = log ++ rectCalls ow g r c n m := by
  rw [rectWrite_eq_replay, replay_recorder]

theorem mem_rowCalls (ow : Bool) (g : Int → Int → Option V) (r c m i : Int) (k : SetCall V) :
    k ∈ rowCalls ow g r c m i ↔
      ∃ j : Int, 0 ≤ j ∧ j < m ∧ ∃ v : V, g i j = some v ∧ k = ⟨r + i, c + j, v, ow⟩ := by
  unfold rowCalls
  rw [List.mem_filterMap]
  constructor
  · rintro ⟨b, hb, hk⟩
    rw [List.mem_range] at hb
    cases hg : g i (b : Int) with
    | none => rw [hg] at hk; simp at hk
    | some v =>
      rw [hg] at hk
      simp only [Option.map_some', Option.some.injEq] at hk
      exact ⟨(b : Int), by omega, by omega, v, hg, hk.symm⟩
  · rintro ⟨j, hj0, hj1, v, hg, hk⟩
    refine ⟨j.toNat, ?_, ?_⟩
    · rw [List.mem_range]; omega
    · have e : ((j.toNat : Nat) : Int) = j := by omega
      rw [e, hg, hk]
      rfl

theorem mem_rectCalls (ow : Bool) (g : Int → Int → Option V) (r c n m : Int) (k : SetCall V) :
    k ∈ rectCalls ow g r c n m ↔
      ∃ i j : Int, 0 ≤ i ∧ i < n ∧ 0 ≤ j ∧ j < m ∧
        ∃ v : V, g i j = some v ∧ k = ⟨r + i, c + j, v, ow⟩ := by
  unfold rectCalls
  rw [List.mem_flatMap]
  constructor
  · rintro ⟨a, ha, hk⟩
    rw [List.mem_range] at ha
    rw [mem_rowCalls] at hk
    obtain ⟨j, hj0, hj1, v, hg, hk⟩ := hk
    exact ⟨(a : Int), j, by omega, by omega, hj0, hj1, v, hg, hk⟩
  · rintro ⟨i, j, hi0, hi1, hj0, hj1, v, hg, hk⟩
    refine ⟨i.toNat, ?_, ?_⟩
    · rw [List.mem_range]; omega
    · have e : ((i.toNat : Nat) : Int) = i := by omega
      rw [e, mem_rowCalls]
      exact ⟨j, hj0, hj1, v, hg, hk⟩

theorem filterMap_row_eq {γ : Type} (a : Nat) (L2 : List Nat) (h : Nat → Option γ)
    (p : Nat × Nat → Bool) (q : Nat × Nat → γ)
    (hh : ∀ b, h b = if p (a, b) then some (q (a, b)) else none) :
    L2.filterMap h = ((L2.map (Prod.mk a)).filter p).map q := by
  induction L2 with
  | nil => rfl
  | cons b l ih =>
    rw [List.filterMap_cons, hh b, List.map_cons]
    by_cases hp : p (a, b) = true
    · rw [List.filter_cons_of_pos hp, List.map_cons, ← ih]
      simp [hp]
    · rw [List.filter_cons_of_neg hp, ← ih]
      simp [hp]

theorem flatMap_filterMap_eq_product {γ : Type} (L1 L2 : List Nat) (h : Nat → Nat → Option γ)
    (p : Nat × Nat → Bool) (q : Nat × Nat → γ)
    (hh : ∀ a b, h a b = if p (a, b) then some (q (a, b)) else none) :
    L1.flatMap (fun a => L2.filterMap (h a)) = ((L1.product L2).filter p).map q := by
  induction L1 with
  | nil => rfl
  | cons a l ih =>
    rw [List.flatMap_cons,
      show (a :: l).product L2 = List.map (Prod.mk a) L2 ++ l.product L2 from
        List.product_cons a l L2,
      List.filter_append, List.map_append, ← ih, filterMap_row_eq a L2 (h a) p q (hh a)]

theorem entriesRowMajor_pairwise (B : ChMatrix V) :
    (entriesRowMajor B).Pairwise (fun p q => p.1 < q.1 ∨ (p.1 = q.1 ∧ p.2 < q.2)) := by
  unfold entriesRowMajor List.product
  rw [List.pairwise_flatMap]
  constructor
  · intro a _
    rw [List.pairwise_map]
    exact (List.pairwise_lt_range _).imp (fun h => Or.inr ⟨rfl, h⟩)
  · refine (List.pairwise_lt_range _).imp ?_
    intro a1 a2 h12 x hx y hy
    rw [List.mem_map] at hx hy
    obtain ⟨_, _, rfl⟩ := hx
    obtain ⟨_, _, rfl⟩ := hy
    exact Or.inl h12

end tracelemmas

/-! ## The paste operations as scans -/

section pastelemmas

variable {σ V : Type}

theorem stores_obeys (M : ChSparseMatrix σ V) (h : StoresOnOverwrite M) :
    Obeys M true (fun _ v => v) := h

theorem adds_obeys [Add V] (M : ChSparseMatrix σ V) (h : AddsOnSum M) :
    Obeys M false (fun old v => old + v) := h

theorem specBackend_stores [Add V] : StoresOnOverwrite (specBackend : ChSparseMatrix _ V) := by
  intro s r c v r' c'
  simp [specBackend]

theorem specBackend_adds [Add V] : AddsOnSum (specBackend : ChSparseMatrix _ V) := by
  intro s r c v r' c'
  simp [specBackend]

theorem PasteMatrix_eq_rectWrite [DecidableEq V] [Zero V] (M : ChSparseMatrix σ V) (s : σ)
    (B : ChMatrix V) (r c : Int) (ow : Bool) :
    M.PasteMatrix s B r c ow false = rectWrite M ow (nonzeroEntry B) r c B.rows B.columns s := by
  unfold ChSparseMatrix.PasteMatrix rectWrite writeCell nonzeroEntry ChMatrix.GetRows
    ChMatrix.GetColumns
  simp only [Bool.false_eq_true, if_false]
  congr 1
  funext i s1
  congr 1
  funext j s2
  by_cases h : B.elem i j = 0 <;> simp [h]

theorem PasteMatrix_transp_eq_rectWrite [DecidableEq V] [Zero V] (M : ChSparseMatrix σ V) (s : σ)
    (B : ChMatrix V) (r c : Int) (ow : Bool) :
    M.PasteMatrix s B r c ow true =
      rectWrite M ow (fun i j => nonzeroEntry B j i) r c B.columns B.rows s := by
  unfold ChSparseMatrix.PasteMatrix rectWrite writeCell nonzeroEntry ChMatrix.GetRows
    ChMatrix.GetColumns
  simp only [if_true]
  congr 1
  funext i s1
  congr 1
  funext j s2
  by_cases h : B.elem j i = 0 <;> simp [h]

theorem PasteClippedMatrix_eq_rectWrite (M : ChSparseMatrix σ V) (s : σ)
    (B : ChMatrix V) (cr cc n m r c : Int) (ow : Bool) :
    M.PasteClippedMatrix s B cr cc n m r c ow =
      rectWrite M ow (fun i j => some (B.elem (i + cr) (j + cc))) r c n m s := by
  rfl

/-- Reading a cell after `PasteMatrix` without transposition. -/
theorem PasteMatrix_get [DecidableEq V] [Zero V] (M : ChSparseMatrix σ V) (ow : Bool)
    (f : V → V → V) (hM : Obeys M ow f) (s : σ) (B : ChMatrix V) (r c r' c' : Int) :
    M.GetElement (M.PasteMatrix s B r c ow false) r' c' =
      if r ≤ r' ∧ r' < r + B.rows ∧ c ≤ c' ∧ c' < c + B.columns then
        cellResult f (M.GetElement s r' c') (nonzeroEntry B (r' - r) (c' - c))
      else M.GetElement s r' c' := by
  rw [PasteMatrix_eq_rectWrite, rectWrite_get M ow f hM]

/-- Reading a cell after `PasteMatrix` with transposition. -/
theorem PasteMatrix_transp_get [DecidableEq V] [Zero V] (M : ChSparseMatrix σ V) (ow : Bool)
    (f : V → V → V) (hM : Obeys M ow f) (s : σ) (B : ChMatrix V) (r c r' c' : Int) :
    M.GetElement (M.PasteMatrix s B r c ow true) r' c' =
      if r ≤ r' ∧ r' < r + B.columns ∧ c ≤ c' ∧ c' < c + B.rows then
        cellResult f (M.GetElement s r' c') (nonzeroEntry B (c' - c) (r' - r))
      else M.GetElement s r' c' := by
  rw [PasteMatrix_transp_eq_rectWrite, rectWrite_get M ow f hM]

/-- Reading a cell after `PasteClippedMatrix`. -/
theorem PasteClippedMatrix_get (M : ChSparseMatrix σ V) (ow : Bool)
    (f : V → V → V) (hM : Obeys M ow f) (s : σ) (B : ChMatrix V)
    (cr cc n m r c r' c' : Int) :
    M.GetElement (M.PasteClippedMatrix s B cr cc n m r c ow) r' c' =
      if r ≤ r' ∧ r' < r + n ∧ c ≤ c' ∧ c' < c + m then
        f (M.GetElement s r' c') (B.elem (r' - r + cr) (c' - c + cc))
      else M.GetElement s r' c' := by
  rw [PasteClippedMatrix_eq_rectWrite, rectWrite_get M ow f hM]
  rfl

theorem nonzeroEntry_of_ne [DecidableEq V] [Zero V] (B : ChMatrix V) (i j : Int)
    (h : B.elem i j ≠ 0) : nonzeroEntry B i j = some (B.elem i j) := by
  simp [nonzeroEntry, h]

theorem nonzeroEntry_of_eq [DecidableEq V] [Zero V] (B : ChMatrix V) (i j : Int)
    (h : B.elem i j = 0) : nonzeroEntry B i j = none := by
  simp [nonzeroEntry, h]

theorem rectCalls_nonzeroEntry [DecidableEq V] [Zero V] (B : ChMatrix V) (r c : Int)
    (ow : Bool) :
    rectCalls ow (nonzeroEntry B) r c B.rows B.columns = nonzeroCallsRowMajor B r c ow := by
  unfold rectCalls rowCalls nonzeroCallsRowMajor entriesRowMajor
  apply flatMap_filterMap_eq_product
  intro a b
  by_cases hz : B.elem (a : Int) (b : Int) = 0
  · rw [nonzeroEntry_of_eq B _ _ hz]; simp [hz]
  · rw [nonzeroEntry_of_ne B _ _ hz]; simp [hz]

end pastelemmas

/-! ## Sequences of calls on a link -/

section linklemmas

variable {β : Type}

theorem run_cons (l : ChLinkBase β) (k : LinkCall) (ks : List LinkCall) :
    l.run (k :: ks) = ((l.call k).1).run ks := rfl

theorem call_broken (l : ChLinkBase β) (k : LinkCall) (hk : k ≠ LinkCall.SetBroken false)
    (hb : l.broken = true) : ((l.call k).1).broken = true := by
  cases k with
  | SetBroken mon =>
    cases mon with
    | false => exact absurd rfl hk
    | true => rfl
  | IsValid => exact hb
  | SetValid mon => exact hb
  | IsDisabled => exact hb
  | SetDisabled mdis => exact hb
  | IsBroken => exact hb
  | IsActive => exact hb

theorem run_broken (l : ChLinkBase β) (calls : List LinkCall)
    (hcalls : ∀ k ∈ calls, k ≠ LinkCall.SetBroken false) (hb : l.broken = true) :
    (l.run calls).broken = true := by
  induction calls generalizing l with
  | nil => exact hb
  | cons k ks ih =>
    rw [run_cons]
    exact ih _ (fun k' hk' => hcalls k' (List.mem_cons_of_mem _ hk'))
      (call_broken l k (hcalls k (List.mem_cons_self _ _)) hb)

end linklemmas

/-! ## Paste calls on sparse matrix objects -/

section objectlemmas

variable {σ τ V : Type}

theorem PasteMatrix_eq_replay [DecidableEq V] [Zero V] [Add V] (M : ChSparseMatrix σ V) (s : σ)
    (B : ChMatrix V) (r c : Int) (ow transp : Bool) :
    M.PasteMatrix s B r c ow transp = replay M s (recorder.PasteMatrix [] B r c ow transp) := by
  cases transp with
  | false =>
    rw [PasteMatrix_eq_rectWrite, PasteMatrix_eq_rectWrite, rectWrite_recorder,
      List.nil_append, rectWrite_eq_replay]
  | true =>
    rw [PasteMatrix_transp_eq_rectWrite, PasteMatrix_transp_eq_rectWrite, rectWrite_recorder,
      List.nil_append, rectWrite_eq_replay]

theorem PasteClippedMatrix_eq_replay [Zero V] [Add V] (M : ChSparseMatrix σ V) (s : σ)
    (B : ChMatrix V) (cr cc n m r c : Int) (ow : Bool) :
    M.PasteClippedMatrix s B cr cc n m r c ow =
      replay M s (recorder.PasteClippedMatrix [] B cr cc n m r c ow) := by
  rw [PasteClippedMatrix_eq_rectWrite, PasteClippedMatrix_eq_rectWrite, rectWrite_recorder,
    List.nil_append, rectWrite_eq_replay]

/-- On every backend a paste call is the replay of its call sequence. -/
theorem PasteOp_apply_eq_replay [DecidableEq V] [Zero V] [Add V] (M : ChSparseMatrix σ V)
    (s : σ) (op : PasteOp V) : op.apply M s = replay M s op.calls := by
  cases op with
  | PasteMatrix B r c ow transp => exact PasteMatrix_eq_replay M s B r c ow transp
  | PasteClippedMatrix B cr cc n m r c ow =>
    exact PasteClippedMatrix_eq_replay M s B cr cc n m r c ow
  | PasteTranspMatrix B r c => exact PasteMatrix_eq_replay M s B r c true true
  | PasteSumMatrix B r c => exact PasteMatrix_eq_replay M s B r c false false
  | PasteSumTranspMatrix B r c => exact PasteMatrix_eq_replay M s B r c false true
  | PasteSumClippedMatrix B cr cc n m r c =>
    exact PasteClippedMatrix_eq_replay M s B cr cc n m r c false

theorem replay_keeps (M : ChSparseMatrix (ChSparseMatrixData τ) V) (hM : KeepsMembers M)
    (o : ChSparseMatrixData τ) (calls : List (SetCall V)) :
    (replay M o calls).m_num_rows = o.m_num_rows ∧
    (replay M o calls).m_num_cols = o.m_num_cols ∧
    (replay M o calls).m_type = o.m_type := by
  induction calls generalizing o with
  | nil => exact ⟨rfl, rfl, rfl⟩
  | cons k ks ih =>
    have hstep : replay M o (k :: ks) =
        replay M (M.SetElement o k.row k.col k.val k.overwrite) ks := rfl
    obtain ⟨h1, h2, h3⟩ := hM o k.row k.col k.val k.overwrite
    obtain ⟨i1, i2, i3⟩ := ih (M.SetElement o k.row k.col k.val k.overwrite)
    rw [hstep]
    exact ⟨i1.trans h1, i2.trans h2, i3.trans h3⟩

theorem PasteOp_apply_keeps [DecidableEq V] [Zero V] [Add V]
    (M : ChSparseMatrix (ChSparseMatrixData τ) V) (hM : KeepsMembers M)
    (o : ChSparseMatrixData τ) (op : PasteOp V) :
    (op.apply M o).m_num_rows = o.m_num_rows ∧
    (op.apply M o).m_num_cols = o.m_num_cols ∧
    (op.apply M o).m_type = o.m_type := by
  rw [PasteOp_apply_eq_replay]
  exact replay_keeps M hM o _

theorem runBaseOps_shape [DecidableEq V] [Zero V] [Add V]
    (M : ChSparseMatrix (ChSparseMatrixData τ) V) (hM : KeepsMembers M)
    (o : ChSparseMatrixData τ) (ops : List (BaseOp V)) :
    (runBaseOps M o ops).m_num_rows = o.m_num_rows ∧
    (runBaseOps M o ops).m_num_cols = o.m_num_cols := by
  induction ops generalizing o with
  | nil => exact ⟨rfl, rfl⟩
  | cons op rest ih =>
    have hstep : runBaseOps M o (op :: rest) = runBaseOps M (op.apply M o) rest := rfl
    rw [hstep]
    obtain ⟨i1, i2⟩ := ih (op.apply M o)
    cases op with
    | SetType t => exact ⟨i1, i2⟩
    | paste p =>
      obtain ⟨h1, h2, _⟩ := PasteOp_apply_keeps M hM o p
      exact ⟨i1.trans h1, i2.trans h2⟩

theorem objectBackend_keeps (M : ChSparseMatrix τ V) : KeepsMembers (objectBackend M) :=
  fun _ _ _ _ _ => ⟨rfl, rfl, rfl⟩

theorem replay_objectBackend_derived (M : ChSparseMatrix τ V) (o : ChSparseMatrixData τ)
    (calls : List (SetCall V)) :
    (replay (objectBackend M) o calls).derived = replay M o.derived calls := by
  induction calls generalizing o with
  | nil => rfl
  | cons k ks ih =>
    have hstep : replay (objectBackend M) o (k :: ks) =
        replay (objectBackend M)
          ((objectBackend M).SetElement o k.row k.col k.val k.overwrite) ks := rfl
    rw [hstep, ih]
    rfl

end objectlemmas

/-! ## Footprints and block reads of a paste -/

section footprintlemmas

variable {σ τ V : Type}

theorem rectCalls_inFootprint (ow : Bool) (g : Int → Int → Option V) (r c n m : Int)
    (k : SetCall V) (hk : k ∈ rectCalls ow g r c n m) : InFootprint r c n m k := by
  rw [mem_rectCalls] at hk
  obtain ⟨i, j, hi0, hi1, hj0, hj1, v, _, rfl⟩ := hk
  unfold InFootprint
  simp only
  omega

theorem mem_PasteClippedMatrix_reads (B : ChMatrix V) (cr cc n m : Int) (p : Int × Int) :
    p ∈ PasteClippedMatrix_reads B cr cc n m ↔
      ∃ i j : Int, 0 ≤ i ∧ i < n ∧ 0 ≤ j ∧ j < m ∧ p = (i + cr, j + cc) := by
  unfold PasteClippedMatrix_reads
  rw [PasteClippedMatrix_eq_rectWrite, rectWrite_recorder, List.nil_append, List.mem_map]
  constructor
  · rintro ⟨k, hk, rfl⟩
    rw [mem_rectCalls] at hk
    obtain ⟨i, j, hi0, hi1, hj0, hj1, v, hv, rfl⟩ := hk
    refine ⟨i, j, hi0, hi1, hj0, hj1, ?_⟩
    simp only [ChMatrix.indices, Option.some.injEq] at hv
    exact hv.symm
  · rintro ⟨i, j, hi0, hi1, hj0, hj1, rfl⟩
    refine ⟨⟨0 + i, 0 + j, (i + cr, j + cc), true⟩, ?_, rfl⟩
    rw [mem_rectCalls]
    exact ⟨i, j, hi0, hi1, hj0, hj1, (i + cr, j + cc), rfl, rfl⟩

theorem PasteClippedMatrix_values_eq_reads [Zero V] [Add V] (B : ChMatrix V)
    (cr cc n m r c : Int) (ow : Bool) :
    (recorder.PasteClippedMatrix [] B cr cc n m r c ow).map SetCall.val =
      (PasteClippedMatrix_reads B cr cc n m).map (fun p => B.elem p.1 p.2) := by
  unfold PasteClippedMatrix_reads
  rw [PasteClippedMatrix_eq_rectWrite, PasteClippedMatrix_eq_rectWrite, rectWrite_recorder,
    rectWrite_recorder, List.nil_append, List.nil_append]
  simp [rectCalls, rowCalls, List.map_flatMap, List.map_filterMap, ChMatrix.indices]

end footprintlemmas

/-! ## The embedding evaluated on the example data -/

section evaluation

/-- The calls of `PasteMatrix(exampleBlock, 10, 20)`: the four nonzero entries, row by
row. -/
theorem exampleBlock_calls :
    recorder.PasteMatrix [] exampleBlock 10 20 true false =
      [⟨10, 20, 1, true⟩, ⟨10, 22, 2, true⟩, ⟨11, 21, 3, true⟩, ⟨11, 22, 4, true⟩] := by
  decide

/-- The calls of `PasteSumTranspMatrix(exampleBlock, 10, 20)`: entry `(i, j)` goes to
`(10 + j, 20 + i)`, column by column of the block. -/
theorem exampleBlock_transp_calls :
    recorder.PasteSumTranspMatrix [] exampleBlock 10 20 =
      [⟨10, 20, 1, false⟩, ⟨11, 21, 3, false⟩, ⟨12, 20, 2, false⟩, ⟨12, 21, 4, false⟩] := by
  decide

/-- The calls of `PasteClippedMatrix(exampleBlock3, 1, 1, 2, 2, 10, 20)`: all four cells
of the sub-rectangle, the zero included. -/
theorem exampleBlock3_clipped_calls :
    recorder.PasteClippedMatrix [] exampleBlock3 1 1 2 2 10 20 true =
      [⟨10, 20, 5, true⟩, ⟨10, 21, 0, true⟩, ⟨11, 20, 8, true⟩, ⟨11, 21, 9, true⟩] := by
  decide

/-- The entries read by `PasteClippedMatrix(exampleBlock3, 1, 1, 2, 2, ..)`: the lower
right 2 x 2 corner, row by row. -/
theorem exampleBlock3_clipped_reads :
    PasteClippedMatrix_reads exampleBlock3 1 1 2 2 = [(1, 1), (1, 2), (2, 1), (2, 2)] := by
  decide

end evaluation

/-! ## The claims -/

section claims

variable {σ V : Type}

/-- C1. Placement of `PasteMatrix`: on a backend whose `GetElement` returns the value
last stored by `SetElement` with `overwrite = true`, after
`PasteMatrix(B, r, c)` (overwrite, no transposition) on any destination `D`,
`GetElement(r+i, c+j)` is `B[i][j]` for every entry `(i, j)` of `B` that is not zero. -/
theorem PasteMatrix_placement [DecidableEq V] [Zero V] (M : ChSparseMatrix σ V)
    (hM : StoresOnOverwrite M) (D : σ) (B : ChMatrix V) (r c i j : Int)
    (hi : 0 ≤ i ∧ i < B.rows) (hj : 0 ≤ j ∧ j < B.columns) (hne : B.elem i j ≠ 0) :
    M.GetElement (M.PasteMatrix D B r c true false) (r + i) (c + j) = B.elem i j := by
  rw [PasteMatrix_get M true _ (stores_obeys M hM), if_pos (by omega)]
  have ei : r + i - r = i := by omega
  have ej : c + j - c = j := by omega
  rw [ei, ej, nonzeroEntry_of_ne B i j hne]
  rfl

/-- Witness of C1: the 2 x 3 example block pasted at (10, 20) over a destination full of
other values; entry (1, 2) = 4 is read back at (11, 22). -/
theorem PasteMatrix_placement_witness :
    StoresOnOverwrite (specBackend : ChSparseMatrix (Int → Int → Int) Int) ∧
    ((0 : Int) ≤ 1 ∧ (1 : Int) < exampleBlock.rows) ∧
    ((0 : Int) ≤ 2 ∧ (2 : Int) < exampleBlock.columns) ∧
    exampleBlock.elem 1 2 ≠ 0 ∧
    specBackend.GetElement (specBackend.PasteMatrix exampleDest exampleBlock 10 20 true false)
      (10 + 1) (20 + 2) = exampleBlock.elem 1 2 :=
  ⟨specBackend_stores, by decide, by decide, by decide,
    PasteMatrix_placement specBackend specBackend_stores exampleDest exampleBlock 10 20 1 2
      (by decide) (by decide) (by decide)⟩

/-- C2. Frame of `PasteMatrix`: on a backend whose `GetElement` returns the value last
stored, after `PasteMatrix(B, r, c)` (overwrite, no transposition) every cell outside
the footprint `[r, r+rows(B)) x [c, c+cols(B))` and every footprint cell `(r+i, c+j)`
with `B[i][j] = 0` returns from `GetElement` the value it returned before the paste. -/
theorem PasteMatrix_frame [DecidableEq V] [Zero V] (M : ChSparseMatrix σ V)
    (hM : StoresOnOverwrite M) (D : σ) (B : ChMatrix V) (r c : Int) :
    (∀ r' c' : Int, ¬ (r ≤ r' ∧ r' < r + B.rows ∧ c ≤ c' ∧ c' < c + B.columns) →
      M.GetElement (M.PasteMatrix D B r c true false) r' c' = M.GetElement D r' c') ∧
    (∀ i j : Int, 0 ≤ i → i < B.rows → 0 ≤ j → j < B.columns → B.elem i j = 0 →
      M.GetElement (M.PasteMatrix D B r c true false) (r + i) (c + j) =
        M.GetElement D (r + i) (c + j)) := by
  constructor
  · intro r' c' hout
    rw [PasteMatrix_get M true _ (stores_obeys M hM), if_neg hout]
  · intro i j hi0 hi1 hj0 hj1 hz
    rw [PasteMatrix_get M true _ (stores_obeys M hM), if_pos (by omega)]
    have ei : r + i - r = i := by omega
    have ej : c + j - c = j := by omega
    rw [ei, ej, nonzeroEntry_of_eq B i j hz]
    rfl

/-- Witness of C2: the 2 x 3 example block pasted at (10, 20) over a destination full of
nonzero values; the cells outside the footprint and the two cells under the zero
entries keep their values, for instance cell (10, 21) keeps 320. -/
theorem PasteMatrix_frame_witness :
    StoresOnOverwrite (specBackend : ChSparseMatrix (Int → Int → Int) Int) ∧
    exampleBlock.elem 0 1 = 0 ∧ exampleDest 10 21 = 320 ∧
    specBackend.GetElement (specBackend.PasteMatrix exampleDest exampleBlock 10 20 true false)
      10 21 = 320 ∧
    ((∀ r' c' : Int,
        ¬ (10 ≤ r' ∧ r' < 10 + exampleBlock.rows ∧ 20 ≤ c' ∧ c' < 20 + exampleBlock.columns) →
        specBackend.GetElement
          (specBackend.PasteMatrix exampleDest exampleBlock 10 20 true false) r' c' =
          specBackend.GetElement exampleDest r' c') ∧
      (∀ i j : Int, 0 ≤ i → i < exampleBlock.rows → 0 ≤ j → j < exampleBlock.columns →
        exampleBlock.elem i j = 0 →
        specBackend.GetElement
          (specBackend.PasteMatrix exampleDest exampleBlock 10 20 true false) (10 + i) (20 + j) =
          specBackend.GetElement exampleDest (10 + i) (20 + j))) :=
  ⟨specBackend_stores, by decide, by decide, by decide,
    PasteMatrix_frame specBackend specBackend_stores exampleDest exampleBlock 10 20⟩

/-- C3, as stated, fails.  The 2 x 3 example block is pasted transposed at `r = 2`,
`c = 5` into an empty destination.  Entry `(i, j) = (0, 2)` of the block is `2`; the
claimed cell `(c + j, r + i) = (7, 2)` holds `0`, and the entry is found at
`(r + j, c + i) = (4, 5)`. -/
theorem PasteTranspMatrix_claimed_cell_counterexample :
    StoresOnOverwrite (specBackend : ChSparseMatrix (Int → Int → Int) Int) ∧
    ((0 : Int) ≤ 0 ∧ (0 : Int) < exampleBlock.rows) ∧
    ((0 : Int) ≤ 2 ∧ (2 : Int) < exampleBlock.columns) ∧
    exampleBlock.elem 0 2 = 2 ∧
    specBackend.GetElement (specBackend.PasteTranspMatrix specReset exampleBlock 2 5)
      (5 + 2) (2 + 0) = 0 ∧
    specBackend.GetElement (specBackend.PasteTranspMatrix specReset exampleBlock 2 5)
      (5 + 2) (2 + 0) ≠ exampleBlock.elem 0 2 ∧
    specBackend.GetElement (specBackend.PasteTranspMatrix specReset exampleBlock 2 5)
      (2 + 2) (5 + 0) = exampleBlock.elem 0 2 :=
  ⟨specBackend_stores, by decide, by decide, by decide, by decide, by decide, by decide⟩

/-- C3, amended. Transpose law: on a backend whose `GetElement` returns the value last
stored, after `PasteTranspMatrix(B, r, c)` every entry `(i, j)` of `B` that is not zero
satisfies `GetElement(r+j, c+i) = B[i][j]`: row index `r + j`, column index `c + i`. -/
theorem PasteTranspMatrix_placement [DecidableEq V] [Zero V] (M : ChSparseMatrix σ V)
    (hM : StoresOnOverwrite M) (D : σ) (B : ChMatrix V) (r c i j : Int)
    (hi : 0 ≤ i ∧ i < B.rows) (hj : 0 ≤ j ∧ j < B.columns) (hne : B.elem i j ≠ 0) :
    M.GetElement (M.PasteTranspMatrix D B r c) (r + j) (c + i) = B.elem i j := by
  unfold ChSparseMatrix.PasteTranspMatrix
  rw [PasteMatrix_transp_get M true _ (stores_obeys M hM), if_pos (by omega)]
  have ei : c + i - c = i := by omega
  have ej : r + j - r = j := by omega
  rw [ei, ej, nonzeroEntry_of_ne B i j hne]
  rfl

/-- Witness of amended C3: entry (0, 2) = 2 of the example block, pasted transposed at
(2, 5), is read back at (4, 5). -/
theorem PasteTranspMatrix_placement_witness :
    StoresOnOverwrite (specBackend : ChSparseMatrix (Int → Int → Int) Int) ∧
    ((0 : Int) ≤ 0 ∧ (0 : Int) < exampleBlock.rows) ∧
    ((0 : Int) ≤ 2 ∧ (2 : Int) < exampleBlock.columns) ∧
    exampleBlock.elem 0 2 ≠ 0 ∧
    specBackend.GetElement (specBackend.PasteTranspMatrix exampleDest exampleBlock 2 5)
      (2 + 2) (5 + 0) = exampleBlock.elem 0 2 :=
  ⟨specBackend_stores, by decide, by decide, by decide,
    PasteTranspMatrix_placement specBackend specBackend_stores exampleDest exampleBlock 2 5 0 2
      (by decide) (by decide) (by decide)⟩

/-- C4. A transposed paste is the paste of the transposed block: for every block `B`,
offsets and overwrite flag, `PasteMatrix(B, insRow, insCol, overwrite, transpose = true)`
issues the same sequence of `SetElement` calls as
`PasteMatrix(Bt, insRow, insCol, overwrite, transpose = false)`, where `Bt` is the
`cols(B) x rows(B)` block with `Bt[j][i] = B[i][j]` (first part, on the recording
backend; second part, the same state on every backend); and the calls issued are
the calls `SetElement(insRow + j, insCol + i, B[i][j], overwrite)` for the nonzero entries
`(i, j)` of `B` (third part). -/
theorem PasteMatrix_transp_eq_paste_transposed [DecidableEq V] [Zero V] [Add V]
    (B : ChMatrix V) (insRow insCol : Int) (overwrite : Bool) :
    (recorder.PasteMatrix [] B insRow insCol overwrite true =
      recorder.PasteMatrix [] B.transposed insRow insCol overwrite false) ∧
    (∀ (M : ChSparseMatrix σ V) (s : σ),
      M.PasteMatrix s B insRow insCol overwrite true =
        M.PasteMatrix s B.transposed insRow insCol overwrite false) ∧
    (∀ k : SetCall V, k ∈ recorder.PasteMatrix [] B insRow insCol overwrite true ↔
      ∃ i j : Int, 0 ≤ i ∧ i < B.rows ∧ 0 ≤ j ∧ j < B.columns ∧ B.elem i j ≠ 0 ∧
        k = ⟨insRow + j, insCol + i, B.elem i j, overwrite⟩) := by
  refine ⟨rfl, fun _ _ => rfl, ?_⟩
  intro k
  rw [PasteMatrix_transp_eq_rectWrite, rectWrite_recorder, List.nil_append, mem_rectCalls]
  constructor
  · rintro ⟨a, b, ha0, ha1, hb0, hb1, v, hg, hk⟩
    by_cases hz : B.elem b a = 0
    · rw [nonzeroEntry_of_eq B b a hz] at hg
      exact absurd hg (by simp)
    · rw [nonzeroEntry_of_ne B b a hz] at hg
      have hv : B.elem b a = v := by simpa using hg
      exact ⟨b, a, hb0, hb1, ha0, ha1, hz, by rw [hk, hv]⟩
  · rintro ⟨i, j, hi0, hi1, hj0, hj1, hne, hk⟩
    exact ⟨j, i, hj0, hj1, hi0, hi1, B.elem i j, nonzeroEntry_of_ne B i j hne, hk⟩

/-- C5. Accumulate law: on a backend that adds on `overwrite = false`, starting from a
destination whose touched cells hold zero, `PasteSumMatrix(B, r, c)` performed twice
yields `GetElement(r+i, c+j) = 2 * B[i][j]` at every cell with `B[i][j] ≠ 0`. -/
theorem PasteSumMatrix_twice [DecidableEq V] [Semiring V] (M : ChSparseMatrix σ V)
    (hM : AddsOnSum M) (D : σ) (B : ChMatrix V) (r c : Int)
    (hzero : ∀ i j : Int, 0 ≤ i → i < B.rows → 0 ≤ j → j < B.columns → B.elem i j ≠ 0 →
      M.GetElement D (r + i) (c + j) = 0)
    (i j : Int) (hi : 0 ≤ i ∧ i < B.rows) (hj : 0 ≤ j ∧ j < B.columns)
    (hne : B.elem i j ≠ 0) :
    M.GetElement (M.PasteSumMatrix (M.PasteSumMatrix D B r c) B r c) (r + i) (c + j) =
      2 * B.elem i j := by
  unfold ChSparseMatrix.PasteSumMatrix
  have hin : r ≤ r + i ∧ r + i < r + B.rows ∧ c ≤ c + j ∧ c + j < c + B.columns := by omega
  rw [PasteMatrix_get M false _ (adds_obeys M hM), if_pos hin,
    PasteMatrix_get M false _ (adds_obeys M hM), if_pos hin]
  have ei : r + i - r = i := by omega
  have ej : c + j - c = j := by omega
  rw [ei, ej, nonzeroEntry_of_ne B i j hne, hzero i j hi.1 hi.2 hj.1 hj.2 hne]
  simp only [cellResult]
  rw [zero_add, two_mul]

/-- Witness of C5: the 2 x 3 example block summed twice at (10, 20) into an empty
destination; cell (11, 22) then holds 8 = 2 * 4. -/
theorem PasteSumMatrix_twice_witness :
    AddsOnSum (specBackend : ChSparseMatrix (Int → Int → Int) Int) ∧
    exampleBlock.elem 1 2 = 4 ∧
    specBackend.GetElement
      (specBackend.PasteSumMatrix (specBackend.PasteSumMatrix specReset exampleBlock 10 20)
        exampleBlock 10 20) (10 + 1) (20 + 2) = 2 * exampleBlock.elem 1 2 :=
  ⟨specBackend_adds, by decide,
    PasteSumMatrix_twice specBackend specBackend_adds specReset exampleBlock 10 20
      (fun _ _ _ _ _ _ _ => rfl) 1 2 (by decide) (by decide) (by decide)⟩

/-- C6. Overwrite paste is idempotent: on a backend whose `GetElement` returns the value
last stored, for every block, destination, offsets and both values of `transpose`,
`PasteMatrix(B, r, c, overwrite = true, transpose)` performed twice leaves the same
`GetElement` value at every cell as performing it once. -/
theorem PasteMatrix_overwrite_idempotent [DecidableEq V] [Zero V] (M : ChSparseMatrix σ V)
    (hM : StoresOnOverwrite M) (D : σ) (B : ChMatrix V) (r c : Int) (transp : Bool)
    (r' c' : Int) :
    M.GetElement (M.PasteMatrix (M.PasteMatrix D B r c true transp) B r c true transp) r' c' =
      M.GetElement (M.PasteMatrix D B r c true transp) r' c' := by
  cases transp with
  | false =>
    rw [PasteMatrix_get M true _ (stores_obeys M hM) (M.PasteMatrix D B r c true false),
      PasteMatrix_get M true _ (stores_obeys M hM) D]
    split_ifs with h
    · cases nonzeroEntry B (r' - r) (c' - c) <;> rfl
    · rfl
  | true =>
    rw [PasteMatrix_transp_get M true _ (stores_obeys M hM) (M.PasteMatrix D B r c true true),
      PasteMatrix_transp_get M true _ (stores_obeys M hM) D]
    split_ifs with h
    · cases nonzeroEntry B (c' - c) (r' - r) <;> rfl
    · rfl

/-- Witness of C6: the example block pasted twice over the example destination, with
and without transposition, reads everywhere as after one paste. -/
theorem PasteMatrix_overwrite_idempotent_witness :
    StoresOnOverwrite (specBackend : ChSparseMatrix (Int → Int → Int) Int) ∧
    specBackend.GetElement
      (specBackend.PasteMatrix (specBackend.PasteMatrix exampleDest exampleBlock 10 20 true false)
        exampleBlock 10 20 true false) 11 22 = 4 ∧
    specBackend.GetElement
      (specBackend.PasteMatrix exampleDest exampleBlock 10 20 true false) 11 22 = 4 ∧
    ∀ (transp : Bool) (r' c' : Int),
      specBackend.GetElement
        (specBackend.PasteMatrix (specBackend.PasteMatrix exampleDest exampleBlock 10 20 true transp)
          exampleBlock 10 20 true transp) r' c' =
      specBackend.GetElement
        (specBackend.PasteMatrix exampleDest exampleBlock 10 20 true transp) r' c' :=
  ⟨specBackend_stores, by decide, by decide, fun transp r' c' =>
    PasteMatrix_overwrite_idempotent specBackend specBackend_stores exampleDest exampleBlock
      10 20 transp r' c'⟩

/-- C7. Clipped paste writes the whole sub-rectangle, zeros included: on a backend whose
`GetElement` returns the value last stored, for a sub-rectangle inside `B`, after
`PasteClippedMatrix(B, clipRow, clipCol, nrows, ncols, insRow, insCol, overwrite = true)`
`GetElement(insRow+i, insCol+j) = B[clipRow+i][clipCol+j]` for all `0 ≤ i < nrows`,
`0 ≤ j < ncols`, and every cell outside
`[insRow, insRow+nrows) x [insCol, insCol+ncols)` is unchanged.  The three hypotheses on
the sub-rectangle say that every block read is inside `B`, where `ChMatrix.elem` is the
element access of the source. -/
theorem PasteClippedMatrix_placement (M : ChSparseMatrix σ V) (hM : StoresOnOverwrite M)
    (D : σ) (B : ChMatrix V) (clipRow clipCol nrows ncols insRow insCol : Int)
    (_hclip : 0 ≤ clipRow ∧ 0 ≤ clipCol) (_hext : 0 ≤ nrows ∧ 0 ≤ ncols)
    (_hin : clipRow + nrows ≤ B.rows ∧ clipCol + ncols ≤ B.columns) :
    (∀ i j : Int, 0 ≤ i → i < nrows → 0 ≤ j → j < ncols →
      M.GetElement
        (M.PasteClippedMatrix D B clipRow clipCol nrows ncols insRow insCol true)
        (insRow + i) (insCol + j) = B.elem (clipRow + i) (clipCol + j)) ∧
    (∀ r' c' : Int,
      ¬ (insRow ≤ r' ∧ r' < insRow + nrows ∧ insCol ≤ c' ∧ c' < insCol + ncols) →
      M.GetElement
        (M.PasteClippedMatrix D B clipRow clipCol nrows ncols insRow insCol true) r' c' =
        M.GetElement D r' c') := by
  constructor
  · intro i j hi0 hi1 hj0 hj1
    rw [PasteClippedMatrix_get M true _ (stores_obeys M hM), if_pos (by omega)]
    have ei : insRow + i - insRow + clipRow = clipRow + i := by omega
    have ej : insCol + j - insCol + clipCol = clipCol + j := by omega
    rw [ei, ej]
  · intro r' c' hout
    rw [PasteClippedMatrix_get M true _ (stores_obeys M hM), if_neg hout]

/-- Witness of C7: the 3 x 3 example block with `PasteClippedMatrix(B, 1, 1, 2, 2, 10, 20)`
over a destination full of nonzero values.  The 2 x 2 region at (10, 20) reads
5, 0, 8, 9: the zero entry `B[1][2]` replaced the value 320 of cell (10, 21). -/
theorem PasteClippedMatrix_placement_witness :
    StoresOnOverwrite (specBackend : ChSparseMatrix (Int → Int → Int) Int) ∧
    exampleBlock3.rows = 3 ∧ exampleBlock3.columns = 3 ∧
    exampleBlock3.elem 1 2 = 0 ∧ exampleDest 10 21 = 320 ∧
    specBackend.GetElement
      (specBackend.PasteClippedMatrix exampleDest exampleBlock3 1 1 2 2 10 20 true) 10 20 = 5 ∧
    specBackend.GetElement
      (specBackend.PasteClippedMatrix exampleDest exampleBlock3 1 1 2 2 10 20 true) 10 21 = 0 ∧
    specBackend.GetElement
      (specBackend.PasteClippedMatrix exampleDest exampleBlock3 1 1 2 2 10 20 true) 11 20 = 8 ∧
    specBackend.GetElement
      (specBackend.PasteClippedMatrix exampleDest exampleBlock3 1 1 2 2 10 20 true) 11 21 = 9 ∧
    ((∀ i j : Int, 0 ≤ i → i < 2 → 0 ≤ j → j < 2 →
      specBackend.GetElement
        (specBackend.PasteClippedMatrix exampleDest exampleBlock3 1 1 2 2 10 20 true)
        (10 + i) (20 + j) = exampleBlock3.elem (1 + i) (1 + j)) ∧
    (∀ r' c' : Int, ¬ (10 ≤ r' ∧ r' < 10 + 2 ∧ 20 ≤ c' ∧ c' < 20 + 2) →
      specBackend.GetElement
        (specBackend.PasteClippedMatrix exampleDest exampleBlock3 1 1 2 2 10 20 true) r' c' =
        specBackend.GetElement exampleDest r' c')) :=
  ⟨specBackend_stores, by decide, by decide, by decide, by decide, by decide, by decide,
    by decide, by decide,
    PasteClippedMatrix_placement specBackend specBackend_stores exampleDest exampleBlock3
      1 1 2 2 10 20 (by decide) (by decide) (by decide)⟩

/-- C8. Activation truth table: for every link, whatever state it inherits, and for all
eight combinations of the flags, `IsActive()` is true exactly when `valid` is true,
`disabled` is false and `broken` is false; `(valid, disabled, broken) =
(true, false, true)` gives false; and two links with the same three flags give the same
`IsActive()`, whatever else their state holds. -/
theorem IsActive_truth_table {β : Type} :
    (∀ l : ChLinkBase β,
      l.IsActive = true ↔ (l.valid = true ∧ l.disabled = false ∧ l.broken = false)) ∧
    (∀ (item : β) (valid disabled broken : Bool),
      (ChLinkBase.mk item disabled valid broken).IsActive =
        (valid && !disabled && !broken)) ∧
    (∀ item : β, (ChLinkBase.mk item false true true).IsActive = false) ∧
    (∀ (item1 item2 : β) (valid disabled broken : Bool),
      (ChLinkBase.mk item1 disabled valid broken).IsActive =
        (ChLinkBase.mk item2 disabled valid broken).IsActive) := by
  refine ⟨?_, fun _ _ _ _ => rfl, fun _ => rfl, fun _ _ _ _ _ => rfl⟩
  intro l
  cases l with
  | mk item disabled valid broken =>
    cases disabled <;> cases valid <;> cases broken <;> simp [ChLinkBase.IsActive]

/-- C9. Call trace of `PasteMatrix` without transposition (fill-in avoidance): for every
block `B`, offsets and overwrite flag, the sequence of `SetElement` calls issued is one
call `SetElement(insRow+i, insCol+j, B[i][j], overwrite)` for each entry `(i, j)` with
`B[i][j] ≠ 0`, in row-major order of `(i, j)`, and no call for an entry that is zero
(first part, with the entries listed once each in row-major order, second part); no
call carries the value zero (third part); the number of calls is the number of nonzero
entries (fourth part); and on every backend the paste is the replay of that sequence
(fifth part). -/
theorem PasteMatrix_call_trace [DecidableEq V] [Zero V] [Add V]
    (B : ChMatrix V) (insRow insCol : Int) (overwrite : Bool) :
    (recorder.PasteMatrix [] B insRow insCol overwrite false =
      nonzeroCallsRowMajor B insRow insCol overwrite) ∧
    ((entriesRowMajor B).Pairwise (fun p q => p.1 < q.1 ∨ (p.1 = q.1 ∧ p.2 < q.2)) ∧
      ∀ p : Nat × Nat, p ∈ entriesRowMajor B ↔ ((p.1 : Int) < B.rows ∧ (p.2 : Int) < B.columns)) ∧
    (∀ k : SetCall V, k ∈ recorder.PasteMatrix [] B insRow insCol overwrite false →
      k.val ≠ 0 ∧ k.overwrite = overwrite) ∧
    ((recorder.PasteMatrix [] B insRow insCol overwrite false).length = countNonzero B) ∧
    (∀ (M : ChSparseMatrix σ V) (s : σ),
      M.PasteMatrix s B insRow insCol overwrite false =
        replay M s (nonzeroCallsRowMajor B insRow insCol overwrite)) := by
  have htrace : recorder.PasteMatrix [] B insRow insCol overwrite false =
      nonzeroCallsRowMajor B insRow insCol overwrite := by
    rw [PasteMatrix_eq_rectWrite, rectWrite_recorder, List.nil_append, rectCalls_nonzeroEntry]
  refine ⟨htrace, ⟨entriesRowMajor_pairwise B, ?_⟩, ?_, ?_, ?_⟩
  · intro p
    obtain ⟨i, j⟩ := p
    have hmem : (i, j) ∈ entriesRowMajor B ↔
        i ∈ List.range B.rows.toNat ∧ j ∈ List.range B.columns.toNat := List.mem_product
    rw [hmem, List.mem_range, List.mem_range]
    omega
  · intro k hk
    rw [htrace] at hk
    unfold nonzeroCallsRowMajor at hk
    rw [List.mem_map] at hk
    obtain ⟨p, hp, rfl⟩ := hk
    rw [List.mem_filter] at hp
    exact ⟨by simpa using hp.2, rfl⟩
  · rw [htrace]
    unfold nonzeroCallsRowMajor countNonzero
    rw [List.length_map, List.countP_eq_length_filter]
  · intro M s
    rw [PasteMatrix_eq_rectWrite, rectWrite_eq_replay, rectCalls_nonzeroEntry]

/-- C10. The convenience wrappers are the primitives with fixed flags: on every backend
and from every state, `PasteTranspMatrix(B, r, c)` is
`PasteMatrix(B, r, c, overwrite = true, transpose = true)`, `PasteSumMatrix(B, r, c)` is
`PasteMatrix(B, r, c, false, false)`, `PasteSumTranspMatrix(B, r, c)` is
`PasteMatrix(B, r, c, false, true)` and `PasteSumClippedMatrix(B, cr, cc, n, m, r, c)` is
`PasteClippedMatrix(B, cr, cc, n, m, r, c, overwrite = false)`: the final states are
equal (first part), and so are the sequences of `SetElement` calls, read on the
recording backend (second part). -/
theorem wrappers_eq_primitives [DecidableEq V] [Zero V] [Add V]
    (B : ChMatrix V) (r c cr cc n m : Int) :
    (∀ (M : ChSparseMatrix σ V) (s : σ),
      M.PasteTranspMatrix s B r c = M.PasteMatrix s B r c true true ∧
      M.PasteSumMatrix s B r c = M.PasteMatrix s B r c false false ∧
      M.PasteSumTranspMatrix s B r c = M.PasteMatrix s B r c false true ∧
      M.PasteSumClippedMatrix s B cr cc n m r c =
        M.PasteClippedMatrix s B cr cc n m r c false) ∧
    (recorder.PasteTranspMatrix [] B r c = recorder.PasteMatrix [] B r c true true ∧
      recorder.PasteSumMatrix [] B r c = recorder.PasteMatrix [] B r c false false ∧
      recorder.PasteSumTranspMatrix [] B r c = recorder.PasteMatrix [] B r c false true ∧
      recorder.PasteSumClippedMatrix [] B cr cc n m r c =
        recorder.PasteClippedMatrix [] B cr cc n m r c false) :=
  ⟨fun _ _ => ⟨rfl, rfl, rfl, rfl⟩, rfl, rfl, rfl, rfl⟩

end claims

/-! ## The claims on link identifiers, objects and flags -/

section claimsObject

variable {σ τ V β : Type}

/-- C11. The identifiers are not pairwise distinct: `LNK_MATEXDISTANCE` and
`LNK_REVOLUTEPRISMATIC` are both 48, so the tag 48 names two constraint kinds.  It is the
only collision: the 46 kinds are listed once each, and after removing `MATEXDISTANCE` the
remaining 45 tags are pairwise distinct. -/
theorem LNK_identifiers_collide :
    LNK_MATEXDISTANCE = 48 ∧ LNK_REVOLUTEPRISMATIC = 48 ∧
    LinkKind.MATEXDISTANCE ≠ LinkKind.REVOLUTEPRISMATIC ∧
    LinkKind.tag .MATEXDISTANCE = LinkKind.tag .REVOLUTEPRISMATIC ∧
    ¬ Function.Injective LinkKind.tag ∧
    (∀ k : LinkKind, k ∈ LinkKind.all) ∧ LinkKind.all.Nodup ∧ LinkKind.all.length = 46 ∧
    ¬ (LinkKind.all.map LinkKind.tag).Nodup ∧
    ((LinkKind.all.erase .MATEXDISTANCE).map LinkKind.tag).Nodup := by
  refine ⟨rfl, rfl, by decide, rfl, ?_, ?_, by decide, rfl, by decide, by decide⟩
  · intro hinj
    exact absurd (@hinj LinkKind.MATEXDISTANCE LinkKind.REVOLUTEPRISMATIC rfl) (by decide)
  · intro k
    cases k <;> decide

/-- C12. Paste index safety: every `SetElement` call issued by a paste lies inside the
paste footprint, which is `[insRow, insRow+rows(B)) x [insCol, insCol+cols(B))` for
`PasteMatrix` without transposition, `[insRow, insRow+cols(B)) x [insCol, insCol+rows(B))`
with transposition, and `[insRow, insRow+nrows) x [insCol, insCol+ncols)` for
`PasteClippedMatrix` (parts 1 to 3); so, when the footprint is contained in
`[0, rows) x [0, cols)`, no call is out of range (parts 4 to 6); and every block read
of `PasteClippedMatrix` is inside `B` when `clipRow, clipCol ≥ 0`,
`clipRow+nrows ≤ rows(B)` and `clipCol+ncols ≤ cols(B)` (part 7), the reads being the
entries whose values the calls carry (part 8). -/
theorem paste_index_safety [DecidableEq V] [Zero V] [Add V] (B : ChMatrix V)
    (insRow insCol : Int) (overwrite : Bool) (clipRow clipCol nrows ncols rows cols : Int) :
    (∀ k ∈ recorder.PasteMatrix [] B insRow insCol overwrite false,
      InFootprint insRow insCol B.rows B.columns k) ∧
    (∀ k ∈ recorder.PasteMatrix [] B insRow insCol overwrite true,
      InFootprint insRow insCol B.columns B.rows k) ∧
    (∀ k ∈ recorder.PasteClippedMatrix [] B clipRow clipCol nrows ncols insRow insCol overwrite,
      InFootprint insRow insCol nrows ncols k) ∧
    ((∀ k : SetCall V, InFootprint insRow insCol B.rows B.columns k → InRange rows cols k) →
      ∀ k ∈ recorder.PasteMatrix [] B insRow insCol overwrite false, InRange rows cols k) ∧
    ((∀ k : SetCall V, InFootprint insRow insCol B.columns B.rows k → InRange rows cols k) →
      ∀ k ∈ recorder.PasteMatrix [] B insRow insCol overwrite true, InRange rows cols k) ∧
    ((∀ k : SetCall V, InFootprint insRow insCol nrows ncols k → InRange rows cols k) →
      ∀ k ∈ recorder.PasteClippedMatrix [] B clipRow clipCol nrows ncols insRow insCol
        overwrite, InRange rows cols k) ∧
    (0 ≤ clipRow → 0 ≤ clipCol → clipRow + nrows ≤ B.rows → clipCol + ncols ≤ B.columns →
      ∀ p ∈ PasteClippedMatrix_reads B clipRow clipCol nrows ncols,
        0 ≤ p.1 ∧ p.1 < B.rows ∧ 0 ≤ p.2 ∧ p.2 < B.columns) ∧
    ((recorder.PasteClippedMatrix [] B clipRow clipCol nrows ncols insRow insCol
        overwrite).map SetCall.val =
      (PasteClippedMatrix_reads B clipRow clipCol nrows ncols).map
        (fun p => B.elem p.1 p.2)) := by
  have h1 : ∀ k ∈ recorder.PasteMatrix [] B insRow insCol overwrite false,
      InFootprint insRow insCol B.rows B.columns k := by
    intro k hk
    rw [PasteMatrix_eq_rectWrite, rectWrite_recorder, List.nil_append] at hk
    exact rectCalls_inFootprint _ _ _ _ _ _ k hk
  have h2 : ∀ k ∈ recorder.PasteMatrix [] B insRow insCol overwrite true,
      InFootprint insRow insCol B.columns B.rows k := by
    intro k hk
    rw [PasteMatrix_transp_eq_rectWrite, rectWrite_recorder, List.nil_append] at hk
    exact rectCalls_inFootprint _ _ _ _ _ _ k hk
  have h3 : ∀ k ∈ recorder.PasteClippedMatrix [] B clipRow clipCol nrows ncols insRow insCol
      overwrite, InFootprint insRow insCol nrows ncols k := by
    intro k hk
    rw [PasteClippedMatrix_eq_rectWrite, rectWrite_recorder, List.nil_append] at hk
    exact rectCalls_inFootprint _ _ _ _ _ _ k hk
  refine ⟨h1, h2, h3, fun hsub k hk => hsub k (h1 k hk), fun hsub k hk => hsub k (h2 k hk),
    fun hsub k hk => hsub k (h3 k hk), ?_,
    PasteClippedMatrix_values_eq_reads B clipRow clipCol nrows ncols insRow insCol overwrite⟩
  intro hcr hcc hrows hcols p hp
  rw [mem_PasteClippedMatrix_reads] at hp
  obtain ⟨i, j, hi0, hi1, hj0, hj1, rfl⟩ := hp
  simp only
  omega

/-- C13. Initial activation state: a newly constructed link, whatever state it inherits,
has `valid = true`, `disabled = false`, `broken = false`, and `IsActive()` returns
true. -/
theorem new_link_is_active (item : β) :
    (ChLinkBase.new item).valid = true ∧ (ChLinkBase.new item).disabled = false ∧
    (ChLinkBase.new item).broken = false ∧ (ChLinkBase.new item).IsValid = true ∧
    (ChLinkBase.new item).IsDisabled = false ∧ (ChLinkBase.new item).IsBroken = false ∧
    (ChLinkBase.new item).IsActive = true :=
  ⟨rfl, rfl, rfl, rfl, rfl, rfl, rfl⟩

/-- C14. Flag setters touch only their own flag: for every link state `l` and boolean
`b`, `SetValid(b)` sets `valid` to `b`, `SetDisabled(b)` sets `disabled` to `b` and
`SetBroken(b)` sets `broken` to `b`, each leaving the other two flags (and the inherited
state) unchanged; the queries `IsValid`, `IsDisabled`, `IsBroken`, `IsActive` leave the
whole state unchanged and return the flag they name, `IsActive` returning
`valid && !disabled && !broken`. -/
theorem flag_accessors_frame (l : ChLinkBase β) (b : Bool) :
    ((l.call (.SetValid b)).1.valid = b ∧ (l.call (.SetValid b)).1.disabled = l.disabled ∧
      (l.call (.SetValid b)).1.broken = l.broken ∧ (l.call (.SetValid b)).1.item = l.item) ∧
    ((l.call (.SetDisabled b)).1.disabled = b ∧ (l.call (.SetDisabled b)).1.valid = l.valid ∧
      (l.call (.SetDisabled b)).1.broken = l.broken ∧
      (l.call (.SetDisabled b)).1.item = l.item) ∧
    ((l.call (.SetBroken b)).1.broken = b ∧ (l.call (.SetBroken b)).1.valid = l.valid ∧
      (l.call (.SetBroken b)).1.disabled = l.disabled ∧
      (l.call (.SetBroken b)).1.item = l.item) ∧
    (l.call .IsValid = (l, some l.valid) ∧ l.call .IsDisabled = (l, some l.disabled) ∧
      l.call .IsBroken = (l, some l.broken) ∧
      l.call .IsActive = (l, some (l.valid && !l.disabled && !l.broken))) ∧
    ((l.SetValid b).valid = b ∧ (l.SetValid b).disabled = l.disabled ∧
      (l.SetValid b).broken = l.broken) ∧
    ((l.SetDisabled b).disabled = b ∧ (l.SetDisabled b).valid = l.valid ∧
      (l.SetDisabled b).broken = l.broken) ∧
    ((l.SetBroken b).broken = b ∧ (l.SetBroken b).valid = l.valid ∧
      (l.SetBroken b).disabled = l.disabled) :=
  ⟨⟨rfl, rfl, rfl, rfl⟩, ⟨rfl, rfl, rfl, rfl⟩, ⟨rfl, rfl, rfl, rfl⟩, ⟨rfl, rfl, rfl, rfl⟩,
    ⟨rfl, rfl, rfl⟩, ⟨rfl, rfl, rfl⟩, ⟨rfl, rfl, rfl⟩⟩

/-- C15, as stated, fails: the constructor stores its arguments unchecked, so
`ChSparseMatrix(-1, -2)` is a matrix with `rows = -1` and `cols = -2`, and it keeps that
shape through `SetType` and a paste. -/
theorem negative_shape_counterexample :
    (ChSparseMatrixData.ctor (-1) (-2) ([] : List (SetCall Int))).GetNumRows = -1 ∧
    (ChSparseMatrixData.ctor (-1) (-2) ([] : List (SetCall Int))).GetNumColumns = -2 ∧
    ¬ (0 ≤ (ChSparseMatrixData.ctor (-1) (-2) ([] : List (SetCall Int))).GetNumRows) ∧
    ¬ (0 ≤ (ChSparseMatrixData.ctor (-1) (-2) ([] : List (SetCall Int))).GetNumColumns) ∧
    ¬ (0 ≤ (runBaseOps (objectBackend recorder)
        (ChSparseMatrixData.ctor (-1) (-2) ([] : List (SetCall Int)))
        [.SetType .SYMMETRIC_INDEF, .paste (.PasteMatrix exampleBlock 0 0 true false)]
        ).GetNumRows) := by
  decide

/-- C15, amended. Shape invariant: a sparse matrix constructed with `nrows ≥ 0` and
`ncols ≥ 0`, after any finite sequence of base-class operations (`SetType` and the paste
operations) on a backend whose `SetElement` leaves the base members alone, has
`rows ≥ 0` and `cols ≥ 0`; indeed it has the shape it was constructed with. -/
theorem shape_invariant [DecidableEq V] [Zero V] [Add V]
    (M : ChSparseMatrix (ChSparseMatrixData τ) V) (hM : KeepsMembers M)
    (nrows ncols : Int) (hrows : 0 ≤ nrows) (hcols : 0 ≤ ncols) (derived : τ)
    (ops : List (BaseOp V)) :
    0 ≤ (runBaseOps M (ChSparseMatrixData.ctor nrows ncols derived) ops).GetNumRows ∧
    0 ≤ (runBaseOps M (ChSparseMatrixData.ctor nrows ncols derived) ops).GetNumColumns ∧
    (runBaseOps M (ChSparseMatrixData.ctor nrows ncols derived) ops).GetNumRows = nrows ∧
    (runBaseOps M (ChSparseMatrixData.ctor nrows ncols derived) ops).GetNumColumns = ncols := by
  obtain ⟨h1, h2⟩ := runBaseOps_shape M hM (ChSparseMatrixData.ctor nrows ncols derived) ops
  have e1 : (runBaseOps M (ChSparseMatrixData.ctor nrows ncols derived) ops).GetNumRows =
      nrows := h1
  have e2 : (runBaseOps M (ChSparseMatrixData.ctor nrows ncols derived) ops).GetNumColumns =
      ncols := h2
  rw [e1, e2]
  exact ⟨hrows, hcols, rfl, rfl⟩

/-- Witness of amended C15: a 5 x 4 matrix of the recording backend, after `SetType`, a
paste, a transposed sum paste and a clipped paste, is still 5 x 4. -/
theorem shape_invariant_witness :
    KeepsMembers (objectBackend (recorder : ChSparseMatrix (List (SetCall Int)) Int)) ∧
    (0 : Int) ≤ 5 ∧ (0 : Int) ≤ 4 ∧
    (0 ≤ (runBaseOps (objectBackend recorder) (ChSparseMatrixData.ctor 5 4 [])
        [.SetType .SYMMETRIC_INDEF, .paste (.PasteMatrix exampleBlock 0 0 true false),
          .paste (.PasteSumTranspMatrix exampleBlock 1 1),
          .paste (.PasteClippedMatrix exampleBlock3 1 1 2 2 0 0 true)]).GetNumRows ∧
      0 ≤ (runBaseOps (objectBackend recorder) (ChSparseMatrixData.ctor 5 4 [])
        [.SetType .SYMMETRIC_INDEF, .paste (.PasteMatrix exampleBlock 0 0 true false),
          .paste (.PasteSumTranspMatrix exampleBlock 1 1),
          .paste (.PasteClippedMatrix exampleBlock3 1 1 2 2 0 0 true)]).GetNumColumns ∧
      (runBaseOps (objectBackend recorder) (ChSparseMatrixData.ctor 5 4 [])
        [.SetType .SYMMETRIC_INDEF, .paste (.PasteMatrix exampleBlock 0 0 true false),
          .paste (.PasteSumTranspMatrix exampleBlock 1 1),
          .paste (.PasteClippedMatrix exampleBlock3 1 1 2 2 0 0 true)]).GetNumRows = 5 ∧
      (runBaseOps (objectBackend recorder) (ChSparseMatrixData.ctor 5 4 [])
        [.SetType .SYMMETRIC_INDEF, .paste (.PasteMatrix exampleBlock 0 0 true false),
          .paste (.PasteSumTranspMatrix exampleBlock 1 1),
          .paste (.PasteClippedMatrix exampleBlock3 1 1 2 2 0 0 true)]).GetNumColumns = 4) :=
  ⟨objectBackend_keeps recorder, by decide, by decide,
    shape_invariant (objectBackend recorder) (objectBackend_keeps recorder) 5 4
      (by decide) (by decide) [] _⟩

/-- C16. The symmetry hint is advisory: for two matrices that differ only in
`symmetryType` (`t1` and `t2`), on a backend whose `SetElement` leaves the base members
alone, every paste operation (`PasteMatrix`, `PasteClippedMatrix` and the four wrappers)
issues the same sequence of `SetElement` calls, `op.calls`, which depends on the paste
call only (part 1: on both matrices the paste is the replay of `op.calls`; part 3: the
recording backend, whatever the tag, receives exactly `op.calls`), and leaves
`symmetryType`, `rows` and `cols` unchanged (part 2). -/
theorem paste_ignores_symmetry_hint [DecidableEq V] [Zero V] [Add V]
    (M : ChSparseMatrix (ChSparseMatrixData τ) V) (hM : KeepsMembers M) (op : PasteOp V)
    (rows cols : Int) (t1 t2 : SymmetryType) (derived : τ) :
    (op.apply M ⟨rows, cols, t1, derived⟩ = replay M ⟨rows, cols, t1, derived⟩ op.calls ∧
      op.apply M ⟨rows, cols, t2, derived⟩ = replay M ⟨rows, cols, t2, derived⟩ op.calls) ∧
    (((op.apply M ⟨rows, cols, t1, derived⟩).GetType = t1 ∧
        (op.apply M ⟨rows, cols, t1, derived⟩).GetNumRows = rows ∧
        (op.apply M ⟨rows, cols, t1, derived⟩).GetNumColumns = cols) ∧
      ((op.apply M ⟨rows, cols, t2, derived⟩).GetType = t2 ∧
        (op.apply M ⟨rows, cols, t2, derived⟩).GetNumRows = rows ∧
        (op.apply M ⟨rows, cols, t2, derived⟩).GetNumColumns = cols)) ∧
    (∀ log : List (SetCall V),
      (op.apply (objectBackend recorder) ⟨rows, cols, t1, log⟩).derived = log ++ op.calls ∧
      (op.apply (objectBackend recorder) ⟨rows, cols, t2, log⟩).derived = log ++ op.calls) := by
  refine ⟨⟨PasteOp_apply_eq_replay M _ op, PasteOp_apply_eq_replay M _ op⟩, ⟨?_, ?_⟩, ?_⟩
  · obtain ⟨h1, h2, h3⟩ := PasteOp_apply_keeps M hM ⟨rows, cols, t1, derived⟩ op
    exact ⟨h3, h1, h2⟩
  · obtain ⟨h1, h2, h3⟩ := PasteOp_apply_keeps M hM ⟨rows, cols, t2, derived⟩ op
    exact ⟨h3, h1, h2⟩
  · intro log
    constructor
    · rw [PasteOp_apply_eq_replay, replay_objectBackend_derived, replay_recorder]
    · rw [PasteOp_apply_eq_replay, replay_objectBackend_derived, replay_recorder]

/-- Witness of C16: the symmetric 2 x 2 example block pasted at (0, 0) into a 5 x 5
matrix tagged `GENERAL` and into one tagged `SYMMETRIC_POSDEF`.  Both receive the same
four calls: for the symmetric one too, both halves of the block are written, cell
(0, 1) and cell (1, 0). -/
theorem paste_ignores_symmetry_hint_witness :
    KeepsMembers (objectBackend (recorder : ChSparseMatrix (List (SetCall Int)) Int)) ∧
    (PasteOp.PasteMatrix exampleSymBlock 0 0 true false).calls =
      [⟨0, 0, 1, true⟩, ⟨0, 1, 2, true⟩, ⟨1, 0, 2, true⟩, ⟨1, 1, 3, true⟩] ∧
    ((PasteOp.PasteMatrix exampleSymBlock 0 0 true false).apply (objectBackend recorder)
        (exampleObject .SYMMETRIC_POSDEF)).derived =
      ((PasteOp.PasteMatrix exampleSymBlock 0 0 true false).apply (objectBackend recorder)
        (exampleObject .GENERAL)).derived ∧
    ((PasteOp.PasteMatrix exampleSymBlock 0 0 true false).apply (objectBackend recorder)
        (exampleObject .SYMMETRIC_POSDEF)).derived =
      [⟨0, 0, 1, true⟩, ⟨0, 1, 2, true⟩, ⟨1, 0, 2, true⟩, ⟨1, 1, 3, true⟩] ∧
    ((PasteOp.PasteMatrix exampleSymBlock 0 0 true false).apply (objectBackend recorder)
        (exampleObject .SYMMETRIC_POSDEF)).GetType = .SYMMETRIC_POSDEF ∧
    (∀ log : List (SetCall Int),
      ((PasteOp.PasteMatrix exampleSymBlock 0 0 true false).apply (objectBackend recorder)
          ⟨5, 5, .GENERAL, log⟩).derived =
        log ++ (PasteOp.PasteMatrix exampleSymBlock 0 0 true false).calls ∧
      ((PasteOp.PasteMatrix exampleSymBlock 0 0 true false).apply (objectBackend recorder)
          ⟨5, 5, .SYMMETRIC_POSDEF, log⟩).derived =
        log ++ (PasteOp.PasteMatrix exampleSymBlock 0 0 true false).calls) :=
  ⟨objectBackend_keeps recorder, by decide, by decide, by decide, by decide,
    (paste_ignores_symmetry_hint (objectBackend recorder) (objectBackend_keeps recorder)
      (PasteOp.PasteMatrix exampleSymBlock 0 0 true false) 5 5 .GENERAL .SYMMETRIC_POSDEF
      []).2.2⟩

/-- C17. Construction and symmetry hint round trip: a sparse matrix constructed with
`(nrows, ncols)` reports `GetNumRows() = nrows`, `GetNumColumns() = ncols` and
`GetType() = GENERAL`; constructed without arguments it is 0 x 0; after `SetType(t)`,
`GetType() = t` for each of the four symmetry types, with the rows, the columns and the
members of the backend unchanged. -/
theorem constructor_and_type_round_trip (nrows ncols : Int) (derived : τ)
    (o : ChSparseMatrixData τ) (t : SymmetryType) :
    ((ChSparseMatrixData.ctor nrows ncols derived).GetNumRows = nrows ∧
      (ChSparseMatrixData.ctor nrows ncols derived).GetNumColumns = ncols ∧
      (ChSparseMatrixData.ctor nrows ncols derived).GetType = SymmetryType.GENERAL) ∧
    ((ChSparseMatrixData.ctorDefault derived).GetNumRows = 0 ∧
      (ChSparseMatrixData.ctorDefault derived).GetNumColumns = 0 ∧
      (ChSparseMatrixData.ctorDefault derived).GetType = SymmetryType.GENERAL) ∧
    ((o.SetType t).GetType = t ∧ (o.SetType t).GetNumRows = o.GetNumRows ∧
      (o.SetType t).GetNumColumns = o.GetNumColumns ∧ (o.SetType t).derived = o.derived) ∧
    ((o.SetType .GENERAL).GetType = .GENERAL ∧
      (o.SetType .SYMMETRIC_POSDEF).GetType = .SYMMETRIC_POSDEF ∧
      (o.SetType .SYMMETRIC_INDEF).GetType = .SYMMETRIC_INDEF ∧
      (o.SetType .STRUCTURAL_SYMMETRIC).GetType = .STRUCTURAL_SYMMETRIC) ∧
    (∀ s : SymmetryType, s = .GENERAL ∨ s = .SYMMETRIC_POSDEF ∨ s = .SYMMETRIC_INDEF ∨
      s = .STRUCTURAL_SYMMETRIC) := by
  refine ⟨⟨rfl, rfl, rfl⟩, ⟨rfl, rfl, rfl⟩, ⟨rfl, rfl, rfl, rfl⟩, ⟨rfl, rfl, rfl, rfl⟩, ?_⟩
  intro s
  cases s <;> simp

/-- C18. CSR export is unsupported by default: for every sparse matrix object, whatever
its shape, symmetry type and content, `GetCSR_RowIndexArray`, `GetCSR_ColIndexArray` and
`GetCSR_ValueArray` of the base class all return the null pointer; they are total, so no
failure is raised. -/
theorem csr_export_is_null (o : ChSparseMatrixData τ) :
    o.GetCSR_RowIndexArray = none ∧ o.GetCSR_ColIndexArray = none ∧
    o.GetCSR_ValueArray V = none ∧
    (∀ (rows cols : Int) (t : SymmetryType) (derived : τ),
      (ChSparseMatrixData.mk rows cols t derived).GetCSR_RowIndexArray = none ∧
      (ChSparseMatrixData.mk rows cols t derived).GetCSR_ColIndexArray = none ∧
      (ChSparseMatrixData.mk rows cols t derived).GetCSR_ValueArray V = none) :=
  ⟨rfl, rfl, rfl, fun _ _ _ _ => ⟨rfl, rfl, rfl⟩⟩

/-- C19. Sum-paste is pointwise addition over the whole footprint: on a backend that
adds on `overwrite = false`, after `PasteSumMatrix(B, r, c)` on any destination `D`,
`GetElement(r+i, c+j) = old(r+i, c+j) + B[i][j]` for every entry `(i, j)` of `B`, zero
or not, and every cell outside the footprint is unchanged. -/
theorem PasteSumMatrix_pointwise [DecidableEq V] [AddZeroClass V] (M : ChSparseMatrix σ V)
    (hM : AddsOnSum M) (D : σ) (B : ChMatrix V) (r c : Int) :
    (∀ i j : Int, 0 ≤ i → i < B.rows → 0 ≤ j → j < B.columns →
      M.GetElement (M.PasteSumMatrix D B r c) (r + i) (c + j) =
        M.GetElement D (r + i) (c + j) + B.elem i j) ∧
    (∀ r' c' : Int, ¬ (r ≤ r' ∧ r' < r + B.rows ∧ c ≤ c' ∧ c' < c + B.columns) →
      M.GetElement (M.PasteSumMatrix D B r c) r' c' = M.GetElement D r' c') := by
  unfold ChSparseMatrix.PasteSumMatrix
  constructor
  · intro i j hi0 hi1 hj0 hj1
    rw [PasteMatrix_get M false _ (adds_obeys M hM), if_pos (by omega)]
    have ei : r + i - r = i := by omega
    have ej : c + j - c = j := by omega
    rw [ei, ej]
    by_cases hz : B.elem i j = 0
    · rw [nonzeroEntry_of_eq B i j hz, hz, add_zero]
      rfl
    · rw [nonzeroEntry_of_ne B i j hz]
      rfl
  · intro r' c' hout
    rw [PasteMatrix_get M false _ (adds_obeys M hM), if_neg hout]

/-- Witness of C19: the 2 x 3 example block summed at (10, 20) into the example
destination; cell (11, 22) goes from 331 to 335, and cell (10, 21), under a zero entry,
keeps 320. -/
theorem PasteSumMatrix_pointwise_witness :
    AddsOnSum (specBackend : ChSparseMatrix (Int → Int → Int) Int) ∧
    exampleDest 11 22 = 331 ∧ exampleBlock.elem 1 2 = 4 ∧
    specBackend.GetElement (specBackend.PasteSumMatrix exampleDest exampleBlock 10 20) 11 22 =
      335 ∧
    exampleDest 10 21 = 320 ∧ exampleBlock.elem 0 1 = 0 ∧
    specBackend.GetElement (specBackend.PasteSumMatrix exampleDest exampleBlock 10 20) 10 21 =
      320 ∧
    ((∀ i j : Int, 0 ≤ i → i < exampleBlock.rows → 0 ≤ j → j < exampleBlock.columns →
      specBackend.GetElement (specBackend.PasteSumMatrix exampleDest exampleBlock 10 20)
          (10 + i) (20 + j) =
        specBackend.GetElement exampleDest (10 + i) (20 + j) + exampleBlock.elem i j) ∧
    (∀ r' c' : Int,
      ¬ (10 ≤ r' ∧ r' < 10 + exampleBlock.rows ∧ 20 ≤ c' ∧ c' < 20 + exampleBlock.columns) →
      specBackend.GetElement (specBackend.PasteSumMatrix exampleDest exampleBlock 10 20)
          r' c' =
        specBackend.GetElement exampleDest r' c')) :=
  ⟨specBackend_adds, by decide, by decide, by decide, by decide, by decide, by decide,
    PasteSumMatrix_pointwise specBackend specBackend_adds exampleDest exampleBlock 10 20⟩

/-- C20. Broken is a latch: from any state with `broken = true`, after any finite
sequence of calls of `IsValid`, `SetValid`, `IsDisabled`, `SetDisabled`, `IsBroken`,
`SetBroken`, `IsActive` that contains no `SetBroken(false)`, `broken` is still true and
`IsActive()` is still false. -/
theorem broken_is_latched (l : ChLinkBase β) (calls : List LinkCall)
    (hb : l.broken = true) (hcalls : ∀ k ∈ calls, k ≠ LinkCall.SetBroken false) :
    (l.run calls).broken = true ∧ (l.run calls).IsBroken = true ∧
    (l.run calls).IsActive = false := by
  have h := run_broken l calls hcalls hb
  refine ⟨h, h, ?_⟩
  unfold ChLinkBase.IsActive
  rw [h]
  simp

/-- Witness of C20: a link is constructed, broken, and then validated, enabled, read and
broken again; it stays broken and inactive. -/
theorem broken_is_latched_witness :
    ((ChLinkBase.new ()).SetBroken true).broken = true ∧
    (∀ k ∈ [LinkCall.SetValid true, .SetDisabled false, .IsActive, .SetValid false,
        .IsBroken, .SetBroken true, .SetDisabled true, .IsValid, .IsDisabled,
        .SetValid true, .SetDisabled false], k ≠ LinkCall.SetBroken false) ∧
    ((((ChLinkBase.new ()).SetBroken true).run
        [.SetValid true, .SetDisabled false, .IsActive, .SetValid false, .IsBroken,
          .SetBroken true, .SetDisabled true, .IsValid, .IsDisabled, .SetValid true,
          .SetDisabled false]).broken = true ∧
      (((ChLinkBase.new ()).SetBroken true).run
        [.SetValid true, .SetDisabled false, .IsActive, .SetValid false, .IsBroken,
          .SetBroken true, .SetDisabled true, .IsValid, .IsDisabled, .SetValid true,
          .SetDisabled false]).IsBroken = true ∧
      (((ChLinkBase.new ()).SetBroken true).run
        [.SetValid true, .SetDisabled false, .IsActive, .SetValid false, .IsBroken,
          .SetBroken true, .SetDisabled true, .IsValid, .IsDisabled, .SetValid true,
          .SetDisabled false]).IsActive = false) :=
  ⟨rfl, by decide,
    broken_is_latched ((ChLinkBase.new ()).SetBroken true) _ rfl (by decide)⟩

end claimsObject

/-! ## Accumulating pastes -/

section sumlemmas

variable {σ V : Type}

/-- After `PasteSumMatrix`, every cell holds its old value plus the contribution of the
block to that cell. -/
theorem PasteSumMatrix_get_add [DecidableEq V] [AddZeroClass V] (M : ChSparseMatrix σ V)
    (hM : AddsOnSum M) (D : σ) (B : ChMatrix V) (r c r' c' : Int) :
    M.GetElement (M.PasteSumMatrix D B r c) r' c' =
      M.GetElement D r' c' + footprintValue B r c r' c' := by
  unfold ChSparseMatrix.PasteSumMatrix footprintValue
  rw [PasteMatrix_get M false _ (adds_obeys M hM)]
  split_ifs with hin
  · by_cases hz : B.elem (r' - r) (c' - c) = 0
    · rw [nonzeroEntry_of_eq B _ _ hz, hz, add_zero]
      rfl
    · rw [nonzeroEntry_of_ne B _ _ hz]
      rfl
  · rw [add_zero]

/-- After `PasteSumClippedMatrix` of the whole block, every cell holds its old value
plus the contribution of the block to that cell. -/
theorem PasteSumClippedMatrix_whole_get_add [AddZeroClass V] (M : ChSparseMatrix σ V)
    (hM : AddsOnSum M) (D : σ) (B : ChMatrix V) (r c r' c' : Int) :
    M.GetElement (M.PasteSumClippedMatrix D B 0 0 B.rows B.columns r c) r' c' =
      M.GetElement D r' c' + footprintValue B r c r' c' := by
  unfold ChSparseMatrix.PasteSumClippedMatrix footprintValue
  rw [PasteClippedMatrix_get M false _ (adds_obeys M hM)]
  split_ifs with hin
  · rw [Int.add_zero, Int.add_zero]
  · rw [add_zero]

theorem rowCalls_some_length (ow : Bool) (g : Int → Int → V) (r c m i : Int) :
    (rowCalls ow (fun a b => some (g a b)) r c m i).length = m.toNat := by
  unfold rowCalls
  have h : ∀ L : List Nat,
      (L.filterMap (fun (j : Nat) =>
        (some (g i (j : Int)) : Option V).map
          (fun v => (⟨r + i, c + (j : Int), v, ow⟩ : SetCall V)))).length = L.length := by
    intro L
    induction L with
    | nil => rfl
    | cons x xs ih => simp [List.filterMap_cons, ih]
  rw [h, List.length_range]

theorem flatMap_length_const {α γ : Type} (L : List α) (f : α → List γ) (m : Nat)
    (hf : ∀ a, (f a).length = m) : (L.flatMap f).length = L.length * m := by
  induction L with
  | nil => simp
  | cons x xs ih =>
    rw [List.flatMap_cons, List.length_append, ih, hf, List.length_cons]
    ring

theorem rectCalls_some_length (ow : Bool) (g : Int → Int → V) (r c n m : Int) :
    (rectCalls ow (fun a b => some (g a b)) r c n m).length = n.toNat * m.toNat := by
  unfold rectCalls
  rw [flatMap_length_const (List.range n.toNat)
      (fun (i : Nat) => rowCalls ow (fun a b => some (g a b)) r c m (i : Int)) m.toNat
      (fun a => rowCalls_some_length ow g r c m (a : Int)),
    List.length_range]

theorem PasteSumClippedMatrix_calls_length [Zero V] [Add V] (B : ChMatrix V)
    (cr cc n m r c : Int) :
    (recorder.PasteSumClippedMatrix [] B cr cc n m r c).length = n.toNat * m.toNat := by
  unfold ChSparseMatrix.PasteSumClippedMatrix
  rw [PasteClippedMatrix_eq_rectWrite, rectWrite_recorder, List.nil_append,
    rectCalls_some_length]

theorem PasteSumMatrix_calls_length [DecidableEq V] [Zero V] [Add V] (B : ChMatrix V)
    (r c : Int) : (recorder.PasteSumMatrix [] B r c).length = countNonzero B := by
  unfold ChSparseMatrix.PasteSumMatrix
  rw [PasteMatrix_eq_rectWrite, rectWrite_recorder, List.nil_append, rectCalls_nonzeroEntry]
  unfold nonzeroCallsRowMajor countNonzero
  rw [List.length_map, List.countP_eq_length_filter]

end sumlemmas

/-! ## Sort on uint4 and the comparison of uvec3 -/

section vectorlemmas

/-- `Sort` is its six steps, one after the other. -/
theorem Sort_eq_steps (a : uint4) :
    a.Sort = (((((a.stepXW).stepXZ).stepXY).stepYW).stepYZ).stepZW := rfl

theorem stepXW_spec (t : uint4) :
    t.stepXW.y = t.y ∧ t.stepXW.z = t.z ∧
    ((t.stepXW.x = t.x ∧ t.stepXW.w = t.w ∧ t.x ≤ t.w) ∨
      (t.stepXW.x = t.w ∧ t.stepXW.w = t.x ∧ t.w < t.x)) := by
  unfold uint4.stepXW Swap
  split_ifs with h
  · exact ⟨rfl, rfl, Or.inr ⟨rfl, rfl, h⟩⟩
  · exact ⟨rfl, rfl, Or.inl ⟨rfl, rfl, by omega⟩⟩

theorem stepXZ_spec (t : uint4) :
    t.stepXZ.y = t.y ∧ t.stepXZ.w = t.w ∧
    ((t.stepXZ.x = t.x ∧ t.stepXZ.z = t.z ∧ t.x ≤ t.z) ∨
      (t.stepXZ.x = t.z ∧ t.stepXZ.z = t.x ∧ t.z < t.x)) := by
  unfold uint4.stepXZ Swap
  split_ifs with h
  · exact ⟨rfl, rfl, Or.inr ⟨rfl, rfl, h⟩⟩
  · exact ⟨rfl, rfl, Or.inl ⟨rfl, rfl, by omega⟩⟩

theorem stepXY_spec (t : uint4) :
    t.stepXY.z = t.z ∧ t.stepXY.w = t.w ∧
    ((t.stepXY.x = t.x ∧ t.stepXY.y = t.y ∧ t.x ≤ t.y) ∨
      (t.stepXY.x = t.y ∧ t.stepXY.y = t.x ∧ t.y < t.x)) := by
  unfold uint4.stepXY Swap
  split_ifs with h
  · exact ⟨rfl, rfl, Or.inr ⟨rfl, rfl, h⟩⟩
  · exact ⟨rfl, rfl, Or.inl ⟨rfl, rfl, by omega⟩⟩

theorem stepYW_spec (t : uint4) :
    t.stepYW.x = t.x ∧ t.stepYW.z = t.z ∧
    ((t.stepYW.y = t.y ∧ t.stepYW.w = t.w ∧ t.y ≤ t.w) ∨
      (t.stepYW.y = t.w ∧ t.stepYW.w = t.y ∧ t.w < t.y)) := by
  unfold uint4.stepYW Swap
  split_ifs with h
  · exact ⟨rfl, rfl, Or.inr ⟨rfl, rfl, h⟩⟩
  · exact ⟨rfl, rfl, Or.inl ⟨rfl, rfl, by omega⟩⟩

theorem stepYZ_spec (t : uint4) :
    t.stepYZ.x = t.x ∧ t.stepYZ.w = t.w ∧
    ((t.stepYZ.y = t.y ∧ t.stepYZ.z = t.z ∧ t.y ≤ t.z) ∨
      (t.stepYZ.y = t.z ∧ t.stepYZ.z = t.y ∧ t.z < t.y)) := by
  unfold uint4.stepYZ Swap
  split_ifs with h
  · exact ⟨rfl, rfl, Or.inr ⟨rfl, rfl, h⟩⟩
  · exact ⟨rfl, rfl, Or.inl ⟨rfl, rfl, by omega⟩⟩

theorem stepZW_spec (t : uint4) :
    t.stepZW.x = t.x ∧ t.stepZW.y = t.y ∧
    ((t.stepZW.z = t.z ∧ t.stepZW.w = t.w ∧ t.z ≤ t.w) ∨
      (t.stepZW.z = t.w ∧ t.stepZW.w = t.z ∧ t.w < t.z)) := by
  unfold uint4.stepZW Swap
  split_ifs with h
  · exact ⟨rfl, rfl, Or.inr ⟨rfl, rfl, h⟩⟩
  · exact ⟨rfl, rfl, Or.inl ⟨rfl, rfl, by omega⟩⟩

theorem stepXW_members (t : uint4) : t.stepXW.members = t.members := by
  unfold uint4.stepXW Swap uint4.members
  split_ifs
  · simp only [Multiset.insert_eq_cons, ← Multiset.singleton_add]
    abel
  · rfl

theorem stepXZ_members (t : uint4) : t.stepXZ.members = t.members := by
  unfold uint4.stepXZ Swap uint4.members
  split_ifs
  · simp only [Multiset.insert_eq_cons, ← Multiset.singleton_add]
    abel
  · rfl

theorem stepXY_members (t : uint4) : t.stepXY.members = t.members := by
  unfold uint4.stepXY Swap uint4.members
  split_ifs
  · simp only [Multiset.insert_eq_cons, ← Multiset.singleton_add]
    abel
  · rfl

theorem stepYW_members (t : uint4) : t.stepYW.members = t.members := by
  unfold uint4.stepYW Swap uint4.members
  split_ifs
  · simp only [Multiset.insert_eq_cons, ← Multiset.singleton_add]
    abel
  · rfl

theorem stepYZ_members (t : uint4) : t.stepYZ.members = t.members := by
  unfold uint4.stepYZ Swap uint4.members
  split_ifs
  · simp only [Multiset.insert_eq_cons, ← Multiset.singleton_add]
    abel
  · rfl

theorem stepZW_members (t : uint4) : t.stepZW.members = t.members := by
  unfold uint4.stepZW Swap uint4.members
  split_ifs
  · simp only [Multiset.insert_eq_cons, ← Multiset.singleton_add]
    abel
  · rfl

theorem Sort_members (a : uint4) : a.Sort.members = a.members := by
  rw [Sort_eq_steps, stepZW_members, stepYZ_members, stepYW_members, stepXY_members,
    stepXZ_members, stepXW_members]

theorem Sort_ordered (a : uint4) :
    a.Sort.x ≤ a.Sort.y ∧ a.Sort.y ≤ a.Sort.z ∧ a.Sort.z ≤ a.Sort.w := by
  rw [Sort_eq_steps]
  have h1 := stepXW_spec a
  have h2 := stepXZ_spec a.stepXW
  have h3 := stepXY_spec a.stepXW.stepXZ
  have h4 := stepYW_spec a.stepXW.stepXZ.stepXY
  have h5 := stepYZ_spec a.stepXW.stepXZ.stepXY.stepYW
  have h6 := stepZW_spec a.stepXW.stepXZ.stepXY.stepYW.stepYZ
  omega

theorem uvec3_lt_iff (a b : uvec3) :
    a.lt b = true ↔
      (a.x < b.x ∨ (a.x = b.x ∧ (a.y < b.y ∨ (a.y = b.y ∧ a.z < b.z)))) := by
  unfold uvec3.lt
  split_ifs <;> simp <;> omega

theorem uvec3_gt_iff (a b : uvec3) :
    a.gt b = true ↔
      (b.x < a.x ∨ (b.x = a.x ∧ (b.y < a.y ∨ (b.y = a.y ∧ b.z < a.z)))) := by
  unfold uvec3.gt
  split_ifs <;> simp <;> omega

theorem uvec3_eq_iff (a b : uvec3) :
    a.eq b = true ↔ (a.x = b.x ∧ a.y = b.y ∧ a.z = b.z) := by
  unfold uvec3.eq
  simp [and_assoc]

theorem lexPrecedes_iff (a b : uvec3) :
    lexPrecedes a b ↔
      (a.x < b.x ∨ (a.x = b.x ∧ (a.y < b.y ∨ (a.y = b.y ∧ a.z < b.z)))) := by
  unfold lexPrecedes
  rw [Prod.Lex.lt_iff, Prod.Lex.lt_iff]

/-- `Sort` on four members in decreasing order. -/
theorem Sort_example_decreasing : uint4.Sort ⟨4, 3, 2, 1⟩ = ⟨1, 2, 3, 4⟩ := by
  decide

/-- `Sort` on members with a repeated value. -/
theorem Sort_example_repeated : uint4.Sort ⟨7, 2, 7, 0⟩ = ⟨0, 2, 7, 7⟩ := by
  decide

/-- The comparison of `uvec3` on vectors that first differ in `y`. -/
theorem uvec3_example :
    uvec3.lt ⟨1, 2, 9⟩ ⟨1, 3, 0⟩ = true ∧ uvec3.gt ⟨1, 2, 9⟩ ⟨1, 3, 0⟩ = false ∧
    uvec3.eq ⟨1, 2, 9⟩ ⟨1, 3, 0⟩ = false ∧ uvec3.gt ⟨1, 3, 0⟩ ⟨1, 2, 9⟩ = true ∧
    uvec3.eq ⟨1, 2, 9⟩ ⟨1, 2, 9⟩ = true ∧ uvec3.lt ⟨1, 2, 9⟩ ⟨1, 2, 9⟩ = false := by
  decide

end vectorlemmas

/-! ## The claims on accumulation and on small vectors -/

section claimsSum

variable {σ V : Type}

/-- C21. The zero-skip and the non-skip policy agree when accumulating: on a backend
that adds on `overwrite = false`, for every block `B`, destination `D` and offsets
`r, c`, `PasteSumClippedMatrix(B, 0, 0, rows(B), cols(B), r, c)` and
`PasteSumMatrix(B, r, c)` leave the same `GetElement` value at every cell (part 1),
although the former issues `rows(B) * cols(B)` calls of `SetElement` (part 2: as a
product of naturals, and as `rows(B) * cols(B)` for a block with `rows(B) ≥ 0` and
`cols(B) ≥ 0`) and the latter one per nonzero entry (part 3). -/
theorem sum_paste_policies_agree [DecidableEq V] [AddZeroClass V] (M : ChSparseMatrix σ V)
    (hM : AddsOnSum M) (D : σ) (B : ChMatrix V) (r c : Int) :
    (∀ r' c' : Int,
      M.GetElement (M.PasteSumClippedMatrix D B 0 0 B.rows B.columns r c) r' c' =
        M.GetElement (M.PasteSumMatrix D B r c) r' c') ∧
    ((recorder.PasteSumClippedMatrix [] B 0 0 B.rows B.columns r c).length =
        B.rows.toNat * B.columns.toNat ∧
      (0 ≤ B.rows → 0 ≤ B.columns →
        (((recorder.PasteSumClippedMatrix [] B 0 0 B.rows B.columns r c).length : Nat) : Int) =
          B.rows * B.columns)) ∧
    ((recorder.PasteSumMatrix [] B r c).length = countNonzero B) := by
  have hlen := PasteSumClippedMatrix_calls_length B 0 0 B.rows B.columns r c
  refine ⟨fun r' c' => ?_, ⟨hlen, fun hr hc => ?_⟩, PasteSumMatrix_calls_length B r c⟩
  · rw [PasteSumClippedMatrix_whole_get_add M hM, PasteSumMatrix_get_add M hM]
  · rw [hlen, Nat.cast_mul, Int.toNat_of_nonneg hr, Int.toNat_of_nonneg hc]

/-- Witness of C21: the 2 x 3 example block summed at (10, 20) into the example
destination, by the clipped paste of the whole block (6 calls) and by the zero-skipping
paste (4 calls); all cells agree, for instance cell (10, 21), under a zero entry, holds
320 after both and cell (11, 22) holds 335 after both. -/
theorem sum_paste_policies_agree_witness :
    AddsOnSum (specBackend : ChSparseMatrix (Int → Int → Int) Int) ∧
    specBackend.GetElement
      (specBackend.PasteSumClippedMatrix exampleDest exampleBlock 0 0 2 3 10 20) 10 21 = 320 ∧
    specBackend.GetElement (specBackend.PasteSumMatrix exampleDest exampleBlock 10 20) 10 21 =
      320 ∧
    specBackend.GetElement
      (specBackend.PasteSumClippedMatrix exampleDest exampleBlock 0 0 2 3 10 20) 11 22 = 335 ∧
    specBackend.GetElement (specBackend.PasteSumMatrix exampleDest exampleBlock 10 20) 11 22 =
      335 ∧
    (recorder.PasteSumClippedMatrix [] exampleBlock 0 0 2 3 10 20).length = 6 ∧
    (recorder.PasteSumMatrix [] exampleBlock 10 20).length = 4 ∧
    ((∀ r' c' : Int,
      specBackend.GetElement
          (specBackend.PasteSumClippedMatrix exampleDest exampleBlock 0 0 exampleBlock.rows
            exampleBlock.columns 10 20) r' c' =
        specBackend.GetElement (specBackend.PasteSumMatrix exampleDest exampleBlock 10 20)
          r' c') ∧
    ((recorder.PasteSumClippedMatrix [] exampleBlock 0 0 exampleBlock.rows
          exampleBlock.columns 10 20).length =
        exampleBlock.rows.toNat * exampleBlock.columns.toNat ∧
      (0 ≤ exampleBlock.rows → 0 ≤ exampleBlock.columns →
        (((recorder.PasteSumClippedMatrix [] exampleBlock 0 0 exampleBlock.rows
          exampleBlock.columns 10 20).length : Nat) : Int) =
          exampleBlock.rows * exampleBlock.columns)) ∧
    ((recorder.PasteSumMatrix [] exampleBlock 10 20).length = countNonzero exampleBlock)) :=
  ⟨specBackend_adds, by decide, by decide, by decide, by decide, by decide, by decide,
    sum_paste_policies_agree specBackend specBackend_adds exampleDest exampleBlock 10 20⟩

/-- C22. Accumulating pastes commute: on a backend that adds on `overwrite = false`, for
all blocks `A` and `B` and all offsets, overlapping footprints included,
`PasteSumMatrix(A, ra, ca)` followed by `PasteSumMatrix(B, rb, cb)` leaves the same
`GetElement` value at every cell as the two pastes in the opposite order. -/
theorem sum_pastes_commute [DecidableEq V] [AddCommMonoid V] (M : ChSparseMatrix σ V)
    (hM : AddsOnSum M) (D : σ) (A B : ChMatrix V) (ra ca rb cb : Int) (r' c' : Int) :
    M.GetElement (M.PasteSumMatrix (M.PasteSumMatrix D A ra ca) B rb cb) r' c' =
      M.GetElement (M.PasteSumMatrix (M.PasteSumMatrix D B rb cb) A ra ca) r' c' := by
  rw [PasteSumMatrix_get_add M hM, PasteSumMatrix_get_add M hM, PasteSumMatrix_get_add M hM,
    PasteSumMatrix_get_add M hM, add_right_comm]

/-- Witness of C22: the 2 x 3 example block summed at (10, 20) and the 3 x 3 example
block summed at (11, 21), whose footprints overlap.  Cell (11, 22) receives
`exampleBlock[1][2] = 4` and `exampleBlock3[0][1] = 2` and goes from 331 to 337 in
both orders. -/
theorem sum_pastes_commute_witness :
    AddsOnSum (specBackend : ChSparseMatrix (Int → Int → Int) Int) ∧
    exampleDest 11 22 = 331 ∧ exampleBlock.elem 1 2 = 4 ∧ exampleBlock3.elem 0 1 = 2 ∧
    specBackend.GetElement
      (specBackend.PasteSumMatrix (specBackend.PasteSumMatrix exampleDest exampleBlock 10 20)
        exampleBlock3 11 21) 11 22 = 337 ∧
    specBackend.GetElement
      (specBackend.PasteSumMatrix (specBackend.PasteSumMatrix exampleDest exampleBlock3 11 21)
        exampleBlock 10 20) 11 22 = 337 ∧
    (∀ r' c' : Int,
      specBackend.GetElement
        (specBackend.PasteSumMatrix (specBackend.PasteSumMatrix exampleDest exampleBlock 10 20)
          exampleBlock3 11 21) r' c' =
      specBackend.GetElement
        (specBackend.PasteSumMatrix
          (specBackend.PasteSumMatrix exampleDest exampleBlock3 11 21)
          exampleBlock 10 20) r' c') :=
  ⟨specBackend_adds, by decide, by decide, by decide, by decide, by decide,
    fun r' c' => sum_pastes_commute specBackend specBackend_adds exampleDest exampleBlock
      exampleBlock3 10 20 11 21 r' c'⟩

/-- C23. `Sort` on `uint4` sorts: for every `uint4 a`, `t = Sort(a)` satisfies
`t.x ≤ t.y ≤ t.z ≤ t.w` and the multiset `{t.x, t.y, t.z, t.w}` is the multiset
`{a.x, a.y, a.z, a.w}`. -/
theorem Sort_sorts (a : uint4) :
    (a.Sort.x ≤ a.Sort.y ∧ a.Sort.y ≤ a.Sort.z ∧ a.Sort.z ≤ a.Sort.w) ∧
    ({a.Sort.x, a.Sort.y, a.Sort.z, a.Sort.w} : Multiset Nat) = {a.x, a.y, a.z, a.w} :=
  ⟨Sort_ordered a, Sort_members a⟩

/-- C24. The comparison of `uvec3` is a strict lexicographic total order: `a < b` holds
exactly when `(a.x, a.y, a.z)` precedes `(b.x, b.y, b.z)` lexicographically (part 1, in
the lexicographic order of triples; part 2, spelled out); exactly one of `a < b`,
`a == b`, `a > b` holds (part 3); `a > b` is `b < a` (part 4); `<` is transitive
(part 5); and `a == b` holds exactly when the two vectors are equal (part 6). -/
theorem uvec3_strict_total_order (a b c : uvec3) :
    (a.lt b = true ↔ lexPrecedes a b) ∧
    (a.lt b = true ↔
      (a.x < b.x ∨ (a.x = b.x ∧ (a.y < b.y ∨ (a.y = b.y ∧ a.z < b.z))))) ∧
    ((a.lt b = true ∧ a.eq b = false ∧ a.gt b = false) ∨
      (a.lt b = false ∧ a.eq b = true ∧ a.gt b = false) ∨
      (a.lt b = false ∧ a.eq b = false ∧ a.gt b = true)) ∧
    (a.gt b = b.lt a) ∧
    (a.lt b = true → b.lt c = true → a.lt c = true) ∧
    (a.eq b = true ↔ a = b) := by
  have hlt := uvec3_lt_iff a b
  have hgt := uvec3_gt_iff a b
  have heq := uvec3_eq_iff a b
  refine ⟨hlt.trans (lexPrecedes_iff a b).symm, hlt, ?_, ?_, ?_, ?_⟩
  · cases h1 : a.lt b <;> cases h2 : a.eq b <;> cases h3 : a.gt b <;>
      simp only [h1, h2, h3, Bool.false_eq_true, false_iff, true_iff] at hlt hgt heq <;>
      simp <;> omega
  · have hba := uvec3_lt_iff b a
    cases h1 : a.gt b <;> cases h2 : b.lt a <;>
      simp only [h1, h2, Bool.false_eq_true, false_iff, true_iff] at hgt hba <;>
      first | rfl | omega
  · intro hab hbc
    rw [uvec3_lt_iff] at hab hbc ⊢
    omega
  · rw [heq]
    constructor
    · rintro ⟨h1, h2, h3⟩
      cases a; cases b
      simp only at h1 h2 h3
      rw [h1, h2, h3]
    · rintro rfl
      exact ⟨rfl, rfl, rfl⟩

end claimsSum

end chrono
